import Mathlib

/-!
# Colorswirl (Adalight host demo): a verification development

Shallow embedding of `src/C/colorswirl.c`.  The program is one `main`
function: it builds a six-byte Adalight header once, then loops forever,
rendering a frame of `N_LEDS` pixels into `buffer`, advancing the animation
state, pushing the buffer down a non-blocking serial descriptor with a
write loop, and printing throughput statistics once a second.

Modelling conventions.

* `main`'s local variables are the fields of `State`, with the C names.
  Four extra fields (`written`, `wire`, `calls`, `reports`) are ghost
  instrumentation: they record which buffer indices the pixel loop stored
  to, which bytes the channel accepted, how many times `write` was called,
  and the operands of every statistics line printed.
* `N_LEDS` is a macro in the source; every definition takes the pixel count
  `n` as a parameter and `N_LEDS = 25` is the built-in value.
* `unsigned char` values are `Nat`s reduced modulo 256 on every store
  (`toUChar`).  The `int` hues `hue1`, `hue2` start at 0 and only ever have
  5 (mod 1536) and 40 added, so they are natural numbers; for
  `n ≤ 65536` (the maximum the source documents) `hue2 ≤ 1535 + 40 * 65536`,
  far below `2 ^ 31`, so no wrap-around is modelled for them.  The two
  statistics counters grow without bound and wrap at 32 bits (`wrapInt`).
* `double`s are modelled by exact rationals, and the library function `sin`
  is a parameter `sinf : ℚ → ℚ`.  `pow (x, 3.0)` is `x ^ 3` and the cast
  `(int)` truncates toward zero.  This is an idealisation: the phases and the
  brightness multiplier of the program carry the rounding of its `double`
  operations.  What is proved about payload bytes is therefore stated
  relative to the multiplier held in `brightness`, not to a phase.  The `float` arithmetic of the statistics
  report is modelled with its rounding (`roundFloat`), because the counters
  outgrow the 24-bit significand.
* The outside world is explicit input: the results returned by the
  successive `write` calls of a frame and the value `time (NULL)` returns
  after that frame (`FrameInput`).
-/

namespace Colorswirl

/-! ## Machine-level helpers -/

/-- Value held by an `unsigned char` after an `int` has been stored in it. -/
def toUChar (x : Int) : Nat := (x % 256).toNat

/-- Conversion `(int) x` of a floating value: truncation toward zero. -/
def truncToInt (q : ℚ) : Int := if 0 ≤ q then ⌊q⌋ else ⌈q⌉

/-- Two's-complement wrap of a 32-bit `int`. -/
def wrapInt (x : Int) : Int := (x + 2147483648) % 4294967296 - 2147483648

/-- Built-in pixel count, `#define N_LEDS 25`. -/
def N_LEDS : Nat := 25

/-- Size of `buffer`, namely `6 + (N_LEDS * 3)`. -/
def sizeofBuffer (n : Nat) : Nat := 6 + n * 3

/-! ## Program state -/

/-- One line printed by the statistics code: the operands of the two
divisions (`frame`, `totalBytesSent`, and the divisor `t - start`). -/
structure Report where
  frame : Int
  totalBytesSent : Int
  elapsed : Int
deriving DecidableEq

/-- Local variables of `main`, plus ghost instrumentation. -/
structure State where
  /-- The `int i`: buffer index in the pixel loop, `write` result in the write loop. -/
  i : Int
  bytesToGo : Int
  bytesSent : Int
  totalBytesSent : Int
  frame : Int
  hue1 : Nat
  hue2 : Nat
  brightness : Int
  buffer : List Nat
  lo : Nat
  r : Nat
  g : Nat
  b : Nat
  sine1 : ℚ
  sine2 : ℚ
  t : Int
  start : Int
  prev : Int
  /-- ghost: indices stored to by the pixel loop of the current frame, in order -/
  written : List Int
  /-- ghost: bytes the channel accepted during the current write loop, in order -/
  wire : List Nat
  /-- ghost: number of `write` calls issued by the current write loop -/
  calls : Nat
  /-- ghost: statistics lines printed so far -/
  reports : List Report
deriving DecidableEq

/-- What the environment supplies during one iteration of `for(;;)`. -/
structure FrameInput where
  /-- results of the successive `write` calls -/
  writes : List Int
  /-- value of `time(NULL)` after the frame has been sent -/
  now : Int

/-! ## Start-up: header construction (source lines 58-71) -/

/-- Lines 62-67: the six header stores. -/
def initHeader (n : Nat) (buffer : List Nat) : List Nat :=
  let buffer := buffer.set 0 65
  let buffer := buffer.set 1 100
  let buffer := buffer.set 2 97
  let buffer := buffer.set 3 (toUChar (((n : Int) - 1) >>> (8 : Nat)))
  let buffer := buffer.set 4 (toUChar (Int.land ((n : Int) - 1) 255))
  buffer.set 5 (toUChar (((buffer.getD 3 0 ^^^ buffer.getD 4 0 ^^^ 85 : Nat) : Int)))

/-- Lines 58-71: `bzero`, the header, and the initial animation and
statistics state.  The argument `s` stands for the uninitialised locals. -/
def startup (n : Nat) (now : Int) (s : State) : State :=
  { s with
    totalBytesSent := 0
    frame := 0
    buffer := initHeader n (List.replicate (sizeofBuffer n) 0)
    sine1 := 0
    hue1 := 0
    start := now
    prev := now
    written := []
    wire := []
    calls := 0
    reports := [] }

/-! ## Frame generation (source lines 74-131) -/

/-- Lines 85-117: the fixed-point hue-to-RGB switch.  There is no `default`
case: if no case matched, `r`, `g`, `b` would keep their previous values. -/
def hueToRGB (s : State) : State :=
  let s := { s with lo := (s.hue2 &&& 255) % 256 }
  match (s.hue2 >>> 8) % 6 with
  | 0 => { s with r := 255, g := s.lo, b := 0 }
  | 1 => { s with r := 255 - s.lo, g := 255, b := 0 }
  | 2 => { s with r := 0, g := 255, b := s.lo }
  | 3 => { s with r := 0, g := 255 - s.lo, b := 255 }
  | 4 => { s with r := s.lo, g := 0, b := 255 }
  | 5 => { s with r := 255, g := 0, b := 255 - s.lo }
  | _ => s

/-- The expression `pow(0.5+sin(sine2)*0.5,3.0)*255.0` converted to `int`,
as a function of the value `sv` returned by `sin`, in exact arithmetic.  The
program rounds each `double` operation, so near an integer crossing its
multiplier can differ by one from this value. -/
def brightnessOf (sv : ℚ) : Int := truncToInt ((1 / 2 + sv * (1 / 2)) ^ 3 * 255)

/-- The expression `(c * brightness) / 255` in `int` arithmetic. -/
def scale (c : Nat) (brightness : Int) : Int := Int.tdiv ((c : Int) * brightness) 255

/-- One store `buffer[i++] = v`. -/
def storeByte (v : Int) (s : State) : State :=
  { s with
    buffer := s.buffer.set s.i.toNat (toUChar v)
    written := s.written ++ [s.i]
    i := s.i + 1 }

/-- Lines 85-130: body of the pixel loop.  The phase step `sine2 += 0.3` is
exact here, where the program adds the `double` nearest to 0.3 and rounds. -/
def pixelBody (sinf : ℚ → ℚ) (s : State) : State :=
  let s := hueToRGB s
  let s := { s with brightness := brightnessOf (sinf s.sine2) }
  let s := storeByte (scale s.r s.brightness) s
  let s := storeByte (scale s.g s.brightness) s
  let s := storeByte (scale s.b s.brightness) s
  { s with hue2 := s.hue2 + 40, sine2 := s.sine2 + 3 / 10 }

/-- The loop `for(i = 6; i < sizeof(buffer); )` after its initialiser, with
an iteration budget.  The test compares the `int i` with a `size_t`, so it
is an unsigned comparison: a negative `i` would fail it. -/
def pixelLoop (n : Nat) (sinf : ℚ → ℚ) : Nat → State → State
  | 0, s => s
  | fuel + 1, s =>
    if 0 ≤ s.i ∧ s.i < (sizeofBuffer n : Int) then pixelLoop n sinf fuel (pixelBody sinf s)
    else s

/-- Lines 74-78: the per-frame copies `sine2 = sine1`, `hue2 = hue1` and the
loop initialiser `i = 6`. -/
def pixelEntry (s : State) : State :=
  let s := { s with sine2 := s.sine1, hue2 := s.hue1 }
  { s with i := 6, written := [] }

/-- Lines 74-131: copy the animation state and render one frame.  The
budget `sizeofBuffer n` is never exhausted (`generateFrame_eq_iter`). -/
def generateFrame (n : Nat) (sinf : ℚ → ℚ) (s : State) : State :=
  pixelLoop n sinf (sizeofBuffer n) (pixelEntry s)

/-- Lines 134-135: rotate hue and brightness phase.  The phase step
`sine1 -= .03` is exact here, where the program subtracts the `double`
nearest to 0.03 and rounds. -/
def advance (s : State) : State :=
  { s with hue1 := (s.hue1 + 5) % 1536, sine1 := s.sine1 - 3 / 100 }

/-! ## Transmission (source lines 140-146) -/

/-- Bytes a `write(fd,&buffer[bytesSent],bytesToGo)` call offers to the
channel. -/
def offered (s : State) : List Nat :=
  (s.buffer.drop s.bytesSent.toNat).take s.bytesToGo.toNat

/-- Body of the write loop for a call `write(fd,&buffer[bytesSent],bytesToGo)`
that returned `res`.  The channel took the first `res` of the offered bytes. -/
def writeBody (res : Int) (s : State) : State :=
  let s := { s with
    i := res, wire := s.wire ++ (offered s).take res.toNat, calls := s.calls + 1 }
  if s.i > 0 then
    { s with bytesToGo := s.bytesToGo - s.i, bytesSent := s.bytesSent + s.i }
  else s

/-- The write loop after its initialiser, run against the given `write`
results.  It stops when `bytesToGo > 0` fails, or, still inside the loop,
when the supplied results are used up. -/
def writeLoop : List Int → State → State
  | [], s => s
  | res :: rest, s => if s.bytesToGo > 0 then writeLoop rest (writeBody res s) else s

/-- The write loop's initialiser `bytesSent=0, bytesToGo=sizeof(buffer)`. -/
def sendEntry (n : Nat) (s : State) : State :=
  { s with bytesSent := 0, bytesToGo := (sizeofBuffer n : Int), wire := [], calls := 0 }

/-- Lines 140-146: `tcdrain` (no effect on the program state) and the write
loop with its initialiser. -/
def sendFrame (n : Nat) (writes : List Int) (s : State) : State :=
  writeLoop writes (sendEntry n s)

/-- Channel assumption: every result is at most the count requested by the
call it answers. -/
def writesValid : List Int → State → Prop
  | [], _ => True
  | res :: rest, s =>
    s.bytesToGo > 0 → res ≤ s.bytesToGo ∧ writesValid rest (writeBody res s)

/-- Write-loop invariant: the counters partition the buffer and the channel
has received exactly the first `bytesSent` bytes of it. -/
def WriteInv (s : State) : Prop :=
  0 ≤ s.bytesSent ∧ 0 ≤ s.bytesToGo ∧
  s.bytesSent + s.bytesToGo = (s.buffer.length : Int) ∧
  s.wire = s.buffer.take s.bytesSent.toNat

/-! ## Statistics (source lines 148-158) and the main loop -/

/-- Lines 148-158: counters and the once-per-second report. -/
def updateStats (n : Nat) (now : Int) (s : State) : State :=
  let s := { s with totalBytesSent := wrapInt (s.totalBytesSent + (sizeofBuffer n : Int)) }
  let s := { s with frame := wrapInt (s.frame + 1) }
  let s := { s with t := now }
  if s.t ≠ s.prev then
    { s with
      reports := s.reports ++ [⟨s.frame, s.totalBytesSent, s.t - s.start⟩]
      prev := s.t }
  else s

/-- Rounding to the nearest integer, ties to the even one. -/
def roundHalfEven (m : ℚ) : Int :=
  if m - ⌊m⌋ < 1 / 2 then ⌊m⌋
  else if 1 / 2 < m - ⌊m⌋ then ⌊m⌋ + 1
  else if ⌊m⌋ % 2 = 0 then ⌊m⌋ else ⌊m⌋ + 1

/-- A positive value rounded to the 24-bit significand of the type `float`
(IEEE-754 binary32, round to nearest, ties to even; the exponent does not go
below that of the subnormals, and overflow to infinity, unreachable from
64-bit integers, is left out). -/
def roundFloatPos (q : ℚ) : ℚ :=
  (roundHalfEven (q / (2 : ℚ) ^ (max (Int.log 2 q) (-126) - 23)) : ℚ) *
    (2 : ℚ) ^ (max (Int.log 2 q) (-126) - 23)

/-- The value of type `float` nearest to `q`. -/
def roundFloat (q : ℚ) : ℚ :=
  if q = 0 then 0 else if 0 < q then roundFloatPos q else -roundFloatPos (-q)

/-- The expression `(int)((float)count / (float)elapsed)` of the report
(lines 155-156).  With a zero divisor the quotient is infinite or NaN and
its conversion to `int` is undefined: `none`. -/
def printedRate (count elapsed : Int) : Option Int :=
  if elapsed = 0 then none
  else some (truncToInt (roundFloat (roundFloat (count : ℚ) / roundFloat (elapsed : ℚ))))

/-- The two numbers printed for a report: frames/sec and bytes/sec. -/
def printedLine (r : Report) : Option Int × Option Int :=
  (printedRate r.frame r.elapsed, printedRate r.totalBytesSent r.elapsed)

/-- One iteration of `for(;;)`.  `none` means the write loop was still
running when the supplied `write` results ran out. -/
def frameIter (n : Nat) (sinf : ℚ → ℚ) (inp : FrameInput) (s : State) : Option State :=
  let s := sendFrame n inp.writes (advance (generateFrame n sinf s))
  if s.bytesToGo > 0 then none else some (updateStats n inp.now s)

/-- The loop `for(;;)` run for one iteration per element of the input. -/
def mainLoop (n : Nat) (sinf : ℚ → ℚ) : List FrameInput → State → Option State
  | [], s => some s
  | inp :: rest, s => (frameIter n sinf inp s).bind (mainLoop n sinf rest)

/-- Clock assumption: the successive values of `time(NULL)`, starting with
the one read at start-up, never decrease. -/
def clockMonotone (t0 : Int) (inputs : List FrameInput) : Prop :=
  List.Chain (fun a b : Int => a ≤ b) t0 (inputs.map FrameInput.now)

/-- A state in which every local is zero and every ghost record is empty,
used as the uninitialised memory of concrete runs. -/
def blank : State :=
  { i := 0, bytesToGo := 0, bytesSent := 0, totalBytesSent := 0, frame := 0,
    hue1 := 0, hue2 := 0, brightness := 0, buffer := [], lo := 0, r := 0, g := 0, b := 0,
    sine1 := 0, sine2 := 0, t := 0, start := 0, prev := 0,
    written := [], wire := [], calls := 0, reports := [] }

/-- Raw wheel colour `(r, g, b)` the hue-to-RGB switch computes for `hue`,
starting from the state `s`. -/
def rawColour (hue : Nat) (s : State) : Nat × Nat × Nat :=
  let s := hueToRGB { s with hue2 := hue }
  (s.r, s.g, s.b)

/-! ## Helper lemmas: bytes -/

theorem toUChar_natCast (x : Nat) (h : x < 256) : toUChar (x : Int) = x := by
  unfold toUChar; omega

theorem toUChar_lt (x : Int) : toUChar x < 256 := by
  unfold toUChar; omega

theorem countHigh_eq (n : Nat) (h1 : 1 ≤ n) (h2 : n ≤ 65536) :
    toUChar (((n : Int) - 1) >>> (8 : Nat)) = (n - 1) / 256 := by
  rw [Int.shiftRight_eq_div_pow]
  unfold toUChar
  norm_num
  omega

theorem countLow_eq (n : Nat) (h1 : 1 ≤ n) :
    toUChar (Int.land ((n : Int) - 1) 255) = (n - 1) % 256 := by
  obtain ⟨m, rfl⟩ : ∃ m, n = m + 1 := ⟨n - 1, by omega⟩
  have e : ((m + 1 : Nat) : Int) - 1 = (m : Int) := by push_cast; ring
  rw [e]
  have e2 : Int.land (m : Int) 255 = ((m &&& 255 : Nat) : Int) := rfl
  rw [e2, show (255 : Nat) = 2 ^ 8 - 1 by norm_num, Nat.and_pow_two_sub_one_eq_mod]
  unfold toUChar
  omega

theorem initHeader_length (n : Nat) (buf : List Nat) :
    (initHeader n buf).length = buf.length := by
  simp [initHeader]

theorem startup_buffer_length (n : Nat) (now : Int) (s : State) :
    (startup n now s).buffer.length = sizeofBuffer n := by
  simp [startup, initHeader_length]


/-! ## Helper lemmas: the colour wheel -/

theorem rawColour_eq (hue : Nat) (s : State) :
    rawColour hue s =
      if hue / 256 % 6 = 0 then (255, hue % 256, 0)
      else if hue / 256 % 6 = 1 then (255 - hue % 256, 255, 0)
      else if hue / 256 % 6 = 2 then (0, 255, hue % 256)
      else if hue / 256 % 6 = 3 then (0, 255 - hue % 256, 255)
      else if hue / 256 % 6 = 4 then (hue % 256, 0, 255)
      else (255, 0, 255 - hue % 256) := by
  have h6 : hue / 256 % 6 < 6 := Nat.mod_lt _ (by norm_num)
  have e1 : hue >>> 8 = hue / 256 := by rw [Nat.shiftRight_eq_div_pow]
  have e2 : (hue &&& 255) % 256 = hue % 256 := by
    rw [show (255 : Nat) = 2 ^ 8 - 1 by norm_num, Nat.and_pow_two_sub_one_eq_mod]; omega
  unfold rawColour hueToRGB
  dsimp only
  rw [e1, e2]
  generalize hue / 256 % 6 = k at h6
  interval_cases k <;> rfl

theorem rawColour_indep (hue : Nat) (s s2 : State) : rawColour hue s = rawColour hue s2 := by
  rw [rawColour_eq, rawColour_eq]

theorem rawColour_le (hue : Nat) (s : State) :
    (rawColour hue s).1 ≤ 255 ∧ (rawColour hue s).2.1 ≤ 255 ∧ (rawColour hue s).2.2 ≤ 255 := by
  have hlo : hue % 256 < 256 := Nat.mod_lt _ (by norm_num)
  rw [rawColour_eq]
  split_ifs <;> refine ⟨?_, ?_, ?_⟩ <;> dsimp only <;> omega

theorem hueToRGB_eq (s : State) :
    hueToRGB s =
      { s with
        lo := (s.hue2 &&& 255) % 256
        r := (rawColour s.hue2 s).1
        g := (rawColour s.hue2 s).2.1
        b := (rawColour s.hue2 s).2.2 } := by
  unfold rawColour hueToRGB
  dsimp only
  split <;> rfl

/-! ## Helper lemmas: the pixel loop -/

/-- The pixel-loop body as one record update. -/
theorem pixelBody_eq (sinf : ℚ → ℚ) (s : State) :
    pixelBody sinf s =
      { s with
        lo := (s.hue2 &&& 255) % 256
        r := (rawColour s.hue2 s).1
        g := (rawColour s.hue2 s).2.1
        b := (rawColour s.hue2 s).2.2
        brightness := brightnessOf (sinf s.sine2)
        buffer := ((s.buffer.set s.i.toNat
            (toUChar (scale (rawColour s.hue2 s).1 (brightnessOf (sinf s.sine2))))).set
              (s.i + 1).toNat
            (toUChar (scale (rawColour s.hue2 s).2.1 (brightnessOf (sinf s.sine2))))).set
              (s.i + 1 + 1).toNat
            (toUChar (scale (rawColour s.hue2 s).2.2 (brightnessOf (sinf s.sine2))))
        written := s.written ++ [s.i] ++ [s.i + 1] ++ [s.i + 1 + 1]
        i := s.i + 1 + 1 + 1
        hue2 := s.hue2 + 40
        sine2 := s.sine2 + 3 / 10 } := by
  unfold pixelBody storeByte
  rw [hueToRGB_eq]

/-- State of the pixel loop after `k` iterations of its body. -/
theorem iter_succ (sinf : ℚ → ℚ) (k : Nat) (s : State) :
    (pixelBody sinf)^[k + 1] s = pixelBody sinf ((pixelBody sinf)^[k] s) :=
  Function.iterate_succ_apply' _ _ _

theorem iter_i (sinf : ℚ → ℚ) (s : State) (k : Nat) :
    ((pixelBody sinf)^[k] (pixelEntry s)).i = 6 + 3 * (k : Int) := by
  induction k with
  | zero => simp [pixelEntry]
  | succ k ih => rw [iter_succ, pixelBody_eq]; simp only [ih]; push_cast; ring

theorem iter_hue2 (sinf : ℚ → ℚ) (s : State) (k : Nat) :
    ((pixelBody sinf)^[k] (pixelEntry s)).hue2 = s.hue1 + 40 * k := by
  induction k with
  | zero => simp [pixelEntry]
  | succ k ih => rw [iter_succ, pixelBody_eq]; simp only [ih]; ring

theorem iter_sine2 (sinf : ℚ → ℚ) (s : State) (k : Nat) :
    ((pixelBody sinf)^[k] (pixelEntry s)).sine2 = s.sine1 + (k : ℚ) * (3 / 10) := by
  induction k with
  | zero => simp [pixelEntry]
  | succ k ih => rw [iter_succ, pixelBody_eq]; simp only [ih]; push_cast; ring

theorem iter_length (sinf : ℚ → ℚ) (s : State) (k : Nat) :
    ((pixelBody sinf)^[k] (pixelEntry s)).buffer.length = s.buffer.length := by
  induction k with
  | zero => simp [pixelEntry]
  | succ k ih => rw [iter_succ, pixelBody_eq]; simp [ih]

theorem iter_written (sinf : ℚ → ℚ) (s : State) (k : Nat) :
    ((pixelBody sinf)^[k] (pixelEntry s)).written =
      (List.range' 6 (3 * k)).map Int.ofNat := by
  induction k with
  | zero => simp [pixelEntry]
  | succ k ih =>
    rw [iter_succ, pixelBody_eq]
    simp only [ih, iter_i]
    have e : List.range' 6 (3 * (k + 1)) =
        List.range' 6 (3 * k) ++ [6 + 3 * k, 6 + 3 * k + 1, 6 + 3 * k + 2] := by
      have h := List.range'_append_1 6 (3 * k) 3
      rw [show 3 * (k + 1) = 3 + 3 * k by ring, ← h]
      rfl
    rw [e, List.map_append]
    simp only [List.append_assoc, List.singleton_append, List.map_cons, List.map_nil,
      Int.ofNat_eq_coe]
    push_cast
    rfl

/-- The pixel loop leaves every variable it does not assign alone. -/
theorem iter_frame (sinf : ℚ → ℚ) (s : State) (k : Nat) :
    ((pixelBody sinf)^[k] s).hue1 = s.hue1 ∧
    ((pixelBody sinf)^[k] s).sine1 = s.sine1 ∧
    ((pixelBody sinf)^[k] s).bytesToGo = s.bytesToGo ∧
    ((pixelBody sinf)^[k] s).bytesSent = s.bytesSent ∧
    ((pixelBody sinf)^[k] s).totalBytesSent = s.totalBytesSent ∧
    ((pixelBody sinf)^[k] s).frame = s.frame ∧
    ((pixelBody sinf)^[k] s).t = s.t ∧
    ((pixelBody sinf)^[k] s).start = s.start ∧
    ((pixelBody sinf)^[k] s).prev = s.prev ∧
    ((pixelBody sinf)^[k] s).wire = s.wire ∧
    ((pixelBody sinf)^[k] s).calls = s.calls ∧
    ((pixelBody sinf)^[k] s).reports = s.reports := by
  induction k with
  | zero => simp
  | succ k ih => rw [iter_succ, pixelBody_eq]; exact ih

/-- With enough budget the pixel loop is exactly `n` iterations of its body. -/
theorem pixelLoop_unroll (n : Nat) (sinf : ℚ → ℚ) (s : State) (k : Nat) :
    ∀ fuel, k ≤ n → k ≤ fuel →
      pixelLoop n sinf fuel (pixelEntry s) =
        pixelLoop n sinf (fuel - k) ((pixelBody sinf)^[k] (pixelEntry s)) := by
  induction k with
  | zero => intro fuel _ _; simp
  | succ k ih =>
    intro fuel hk hf
    rw [ih fuel (by omega) (by omega)]
    obtain ⟨m, hm⟩ : ∃ m, fuel - k = m + 1 := ⟨fuel - k - 1, by omega⟩
    have hm2 : fuel - (k + 1) = m := by omega
    rw [hm, hm2, pixelLoop, iter_i, if_pos, iter_succ]
    refine ⟨by omega, ?_⟩
    simp only [sizeofBuffer]; push_cast; omega

theorem pixelLoop_stop (n : Nat) (sinf : ℚ → ℚ) (fuel : Nat) (s : State)
    (h : ¬ s.i < (sizeofBuffer n : Int)) : pixelLoop n sinf fuel s = s := by
  cases fuel with
  | zero => rfl
  | succ m => rw [pixelLoop, if_neg (fun hc => h hc.2)]

theorem generateFrame_eq_iter (n : Nat) (sinf : ℚ → ℚ) (s : State) :
    generateFrame n sinf s = (pixelBody sinf)^[n] (pixelEntry s) := by
  unfold generateFrame
  rw [pixelLoop_unroll n sinf s n _ le_rfl (by simp [sizeofBuffer]; omega)]
  apply pixelLoop_stop
  rw [iter_i]
  simp only [sizeofBuffer]; push_cast; omega

theorem set3_getElem?_lt (l : List Nat) (m a b c j : Nat) (h : j < m) :
    (((l.set m a).set (m + 1) b).set (m + 2) c)[j]? = l[j]? := by
  rw [List.getElem?_set_ne (by omega), List.getElem?_set_ne (by omega),
    List.getElem?_set_ne (by omega)]

theorem set3_getElem?_at (l : List Nat) (m a b c : Nat) (h : m + 2 < l.length) :
    (((l.set m a).set (m + 1) b).set (m + 2) c)[m]? = some a ∧
    (((l.set m a).set (m + 1) b).set (m + 2) c)[m + 1]? = some b ∧
    (((l.set m a).set (m + 1) b).set (m + 2) c)[m + 2]? = some c := by
  refine ⟨?_, ?_, ?_⟩
  · rw [List.getElem?_set_ne (by omega), List.getElem?_set_ne (by omega),
      List.getElem?_set_self (by omega)]
  · rw [List.getElem?_set_ne (by omega), List.getElem?_set_self (by simp; omega)]
  · rw [List.getElem?_set_self (by simp; omega)]

theorem pixelBody_buffer (sinf : ℚ → ℚ) (s : State) (m : Nat) (hi : s.i = (m : Int)) :
    (pixelBody sinf s).buffer =
      ((s.buffer.set m
          (toUChar (scale (rawColour s.hue2 s).1 (brightnessOf (sinf s.sine2))))).set (m + 1)
          (toUChar (scale (rawColour s.hue2 s).2.1 (brightnessOf (sinf s.sine2))))).set (m + 2)
          (toUChar (scale (rawColour s.hue2 s).2.2 (brightnessOf (sinf s.sine2)))) := by
  rw [pixelBody_eq]
  have e0 : s.i.toNat = m := by omega
  have e1 : (s.i + 1).toNat = m + 1 := by omega
  have e2 : (s.i + 1 + 1).toNat = m + 2 := by omega
  simp only [e0, e1, e2]

theorem iter_buffer_low (sinf : ℚ → ℚ) (s : State) (k j : Nat) (hj : j < 6) :
    ((pixelBody sinf)^[k] (pixelEntry s)).buffer[j]? = s.buffer[j]? := by
  induction k with
  | zero => simp [pixelEntry]
  | succ k ih =>
    rw [iter_succ, pixelBody_buffer sinf _ (6 + 3 * k) (by rw [iter_i]; push_cast; ring),
      set3_getElem?_lt _ _ _ _ _ _ (by omega), ih]

/-- Bytes of pixel `p` once the loop has run at least `p + 1` iterations. -/
theorem iter_buffer_pixel (n : Nat) (sinf : ℚ → ℚ) (s : State)
    (hlen : s.buffer.length = sizeofBuffer n) (k : Nat) (hk : k ≤ n) (p : Nat) (hp : p < k) :
    ((pixelBody sinf)^[k] (pixelEntry s)).buffer[6 + 3 * p]? =
      some (toUChar (scale (rawColour (s.hue1 + 40 * p) s).1
        (brightnessOf (sinf (s.sine1 + (p : ℚ) * (3 / 10)))))) ∧
    ((pixelBody sinf)^[k] (pixelEntry s)).buffer[6 + 3 * p + 1]? =
      some (toUChar (scale (rawColour (s.hue1 + 40 * p) s).2.1
        (brightnessOf (sinf (s.sine1 + (p : ℚ) * (3 / 10)))))) ∧
    ((pixelBody sinf)^[k] (pixelEntry s)).buffer[6 + 3 * p + 2]? =
      some (toUChar (scale (rawColour (s.hue1 + 40 * p) s).2.2
        (brightnessOf (sinf (s.sine1 + (p : ℚ) * (3 / 10)))))) := by
  induction k with
  | zero => omega
  | succ k ih =>
    have hi : ((pixelBody sinf)^[k] (pixelEntry s)).i = ((6 + 3 * k : Nat) : Int) := by
      rw [iter_i]; push_cast; ring
    rw [iter_succ, pixelBody_buffer sinf _ (6 + 3 * k) hi]
    rcases Nat.lt_succ_iff_lt_or_eq.mp hp with hlt | heq
    · obtain ⟨h1, h2, h3⟩ := ih (by omega) hlt
      refine ⟨?_, ?_, ?_⟩
      · rw [set3_getElem?_lt _ _ _ _ _ _ (by omega), h1]
      · rw [set3_getElem?_lt _ _ _ _ _ _ (by omega), h2]
      · rw [set3_getElem?_lt _ _ _ _ _ _ (by omega), h3]
    · subst heq
      have hl : 6 + 3 * p + 2 < ((pixelBody sinf)^[p] (pixelEntry s)).buffer.length := by
        rw [iter_length, hlen]; unfold sizeofBuffer; omega
      rw [iter_hue2, iter_sine2,
        rawColour_indep (s.hue1 + 40 * p) ((pixelBody sinf)^[p] (pixelEntry s)) s]
      exact set3_getElem?_at _ _ _ _ _ hl

/-! ## Helper lemmas: brightness and scaling -/

theorem truncToInt_of_nonneg (q : ℚ) (h : 0 ≤ q) : truncToInt q = ⌊q⌋ := by
  unfold truncToInt; rw [if_pos h]

theorem brightnessOf_range (sv : ℚ) (h1 : -1 ≤ sv) (h2 : sv ≤ 1) :
    0 ≤ brightnessOf sv ∧ brightnessOf sv ≤ 255 := by
  have hx0 : (0 : ℚ) ≤ 1 / 2 + sv * (1 / 2) := by linarith
  have hx1 : 1 / 2 + sv * (1 / 2) ≤ (1 : ℚ) := by linarith
  have hc0 : (0 : ℚ) ≤ (1 / 2 + sv * (1 / 2)) ^ 3 := pow_nonneg hx0 3
  have hc1 : (1 / 2 + sv * (1 / 2)) ^ 3 ≤ (1 : ℚ) := pow_le_one₀ hx0 hx1
  have hq0 : (0 : ℚ) ≤ (1 / 2 + sv * (1 / 2)) ^ 3 * 255 := by positivity
  have hq1 : (1 / 2 + sv * (1 / 2)) ^ 3 * 255 ≤ (255 : ℚ) := by linarith
  unfold brightnessOf
  rw [truncToInt_of_nonneg _ hq0]
  refine ⟨Int.floor_nonneg.mpr hq0, ?_⟩
  have hfl := Int.floor_le ((1 / 2 + sv * (1 / 2)) ^ 3 * 255)
  have : ((⌊(1 / 2 + sv * (1 / 2)) ^ 3 * 255⌋ : Int) : ℚ) ≤ ((255 : Int) : ℚ) := by
    push_cast; linarith
  exact Int.cast_le.mp this

theorem scale_range (c : Nat) (br : Int) (hc : c ≤ 255) (h0 : 0 ≤ br) (h1 : br ≤ 255) :
    0 ≤ scale c br ∧ scale c br ≤ 255 ∧ ((toUChar (scale c br) : Nat) : Int) = scale c br := by
  have hc2 : (c : Int) ≤ 255 := by exact_mod_cast hc
  have hc0 : (0 : Int) ≤ c := Int.natCast_nonneg c
  have hp0 : 0 ≤ (c : Int) * br := mul_nonneg hc0 h0
  have hp1 : (c : Int) * br ≤ 65025 := by nlinarith
  unfold scale toUChar
  rw [Int.tdiv_eq_ediv hp0 (by norm_num)]
  generalize (c : Int) * br = x at hp0 hp1
  omega

theorem brightnessOf_zero : brightnessOf 0 = 31 := by
  unfold brightnessOf
  rw [truncToInt_of_nonneg _ (by norm_num)]
  rw [Int.floor_eq_iff]
  norm_num

/-! ## Helper lemmas: the write loop -/

theorem writeBody_pos (res : Int) (s : State) (h : res > 0) :
    writeBody res s =
      { s with
        i := res
        wire := s.wire ++ (offered s).take res.toNat
        calls := s.calls + 1
        bytesToGo := s.bytesToGo - res
        bytesSent := s.bytesSent + res } := by
  unfold writeBody
  simp only [h, if_true]

theorem writeBody_nonpos (res : Int) (s : State) (h : ¬ res > 0) :
    writeBody res s = { s with i := res, calls := s.calls + 1 } := by
  unfold writeBody
  have e : res.toNat = 0 := by omega
  simp only [h, if_false, e, List.take_zero, List.append_nil]

theorem writeBody_buffer (res : Int) (s : State) : (writeBody res s).buffer = s.buffer := by
  by_cases h : res > 0
  · rw [writeBody_pos res s h]
  · rw [writeBody_nonpos res s h]

theorem writeBody_inv (res : Int) (s : State) (hinv : WriteInv s) (hle : res ≤ s.bytesToGo) :
    WriteInv (writeBody res s) := by
  obtain ⟨h0, hg, hsum, hw⟩ := hinv
  by_cases h : res > 0
  · rw [writeBody_pos res s h]
    refine ⟨?_, ?_, ?_, ?_⟩
    · show 0 ≤ s.bytesSent + res
      omega
    · show 0 ≤ s.bytesToGo - res
      omega
    · show s.bytesSent + res + (s.bytesToGo - res) = (s.buffer.length : Int)
      omega
    · show s.wire ++ ((s.buffer.drop s.bytesSent.toNat).take s.bytesToGo.toNat).take res.toNat =
        s.buffer.take (s.bytesSent + res).toNat
      have e : (s.bytesSent + res).toNat = s.bytesSent.toNat + res.toNat := by omega
      rw [e, List.take_add, hw, List.take_take, Nat.min_eq_left (by omega)]
  · rw [writeBody_nonpos res s h]
    exact ⟨h0, hg, hsum, hw⟩

theorem writeLoop_buffer (writes : List Int) (s : State) :
    (writeLoop writes s).buffer = s.buffer := by
  induction writes generalizing s with
  | nil => rfl
  | cons res rest ih =>
    unfold writeLoop
    split_ifs
    · rw [ih, writeBody_buffer]
    · rfl

theorem writeLoop_inv (writes : List Int) (s : State) (hinv : WriteInv s)
    (hv : writesValid writes s) : WriteInv (writeLoop writes s) := by
  induction writes generalizing s with
  | nil => exact hinv
  | cons res rest ih =>
    unfold writeLoop
    split_ifs with hgo
    · obtain ⟨hle, hrest⟩ := hv hgo
      exact ih _ (writeBody_inv res s hinv hle) hrest
    · exact hinv

theorem writesValid_take (writes : List Int) (s : State) (j : Nat)
    (hv : writesValid writes s) : writesValid (writes.take j) s := by
  induction writes generalizing s j with
  | nil => simpa using hv
  | cons res rest ih =>
    cases j with
    | zero => simp [writesValid]
    | succ j =>
      rw [List.take_succ_cons]
      intro hgo
      obtain ⟨hle, hrest⟩ := hv hgo
      exact ⟨hle, ih _ j hrest⟩

theorem sendEntry_inv (n : Nat) (s : State) (hlen : s.buffer.length = sizeofBuffer n) :
    WriteInv (sendEntry n s) := by
  refine ⟨le_rfl, ?_, ?_, ?_⟩
  · show (0 : Int) ≤ (sizeofBuffer n : Int)
    omega
  · show (0 : Int) + (sizeofBuffer n : Int) = (s.buffer.length : Int)
    rw [hlen]; omega
  · show ([] : List Nat) = s.buffer.take (0 : Int).toNat
    simp

/-- When the write loop has exited, the channel holds the whole buffer. -/
theorem writeInv_exit (s : State) (hinv : WriteInv s) (hexit : ¬ s.bytesToGo > 0) :
    s.bytesToGo = 0 ∧ s.wire = s.buffer := by
  obtain ⟨h0, hg, hsum, hw⟩ := hinv
  have hz : s.bytesToGo = 0 := by omega
  refine ⟨hz, ?_⟩
  rw [hw]
  apply List.take_of_length_le
  omega

theorem writesValid_ones (m : Nat) (s : State) : writesValid (List.replicate m 1) s := by
  induction m generalizing s with
  | zero => trivial
  | succ m ih =>
    rw [List.replicate_succ]
    intro hgo
    exact ⟨by omega, ih _⟩

/-- A channel that takes one byte per call: counters after `m` calls. -/
theorem writeLoop_ones (m : Nat) (s : State) (hg : 0 ≤ s.bytesToGo) :
    (writeLoop (List.replicate m 1) s).bytesToGo = s.bytesToGo - min (m : Int) s.bytesToGo ∧
    ((writeLoop (List.replicate m 1) s).calls : Int) = s.calls + min (m : Int) s.bytesToGo := by
  induction m generalizing s with
  | zero => simp [writeLoop, hg]
  | succ m ih =>
    rw [List.replicate_succ]
    unfold writeLoop
    split_ifs with hgo
    · have hb : (writeBody 1 s).bytesToGo = s.bytesToGo - 1 := by
        rw [writeBody_pos 1 s (by norm_num)]
      have hc : (writeBody 1 s).calls = s.calls + 1 := by
        rw [writeBody_pos 1 s (by norm_num)]
      obtain ⟨h1, h2⟩ := ih (writeBody 1 s) (by rw [hb]; omega)
      rw [h1, h2, hb, hc]
      push_cast
      omega
    · have hz : s.bytesToGo = 0 := by omega
      rw [hz]
      push_cast
      omega

/-! ## Helper lemmas: one frame and the main loop -/

theorem writeLoop_frame (writes : List Int) (s : State) :
    (writeLoop writes s).hue1 = s.hue1 ∧
    (writeLoop writes s).sine1 = s.sine1 ∧
    (writeLoop writes s).totalBytesSent = s.totalBytesSent ∧
    (writeLoop writes s).frame = s.frame ∧
    (writeLoop writes s).start = s.start ∧
    (writeLoop writes s).prev = s.prev ∧
    (writeLoop writes s).reports = s.reports := by
  induction writes generalizing s with
  | nil => simp [writeLoop]
  | cons res rest ih =>
    unfold writeLoop
    split_ifs
    · have hb : (writeBody res s).hue1 = s.hue1 ∧ (writeBody res s).sine1 = s.sine1 ∧
          (writeBody res s).totalBytesSent = s.totalBytesSent ∧
          (writeBody res s).frame = s.frame ∧ (writeBody res s).start = s.start ∧
          (writeBody res s).prev = s.prev ∧ (writeBody res s).reports = s.reports := by
        by_cases h : res > 0
        · rw [writeBody_pos res s h]; simp
        · rw [writeBody_nonpos res s h]; simp
      obtain ⟨a1, a2, a3, a4, a5, a6, a7⟩ := ih (writeBody res s)
      obtain ⟨b1, b2, b3, b4, b5, b6, b7⟩ := hb
      exact ⟨a1.trans b1, a2.trans b2, a3.trans b3, a4.trans b4, a5.trans b5, a6.trans b6,
        a7.trans b7⟩
    · simp

theorem updateStats_frame (n : Nat) (now : Int) (s : State) :
    (updateStats n now s).buffer = s.buffer ∧
    (updateStats n now s).hue1 = s.hue1 ∧
    (updateStats n now s).sine1 = s.sine1 ∧
    (updateStats n now s).start = s.start := by
  unfold updateStats
  dsimp only
  split_ifs <;> simp

/-- Effect of one completed iteration of `for(;;)` on the animation state and
on the buffer. -/
theorem frameIter_some (n : Nat) (sinf : ℚ → ℚ) (inp : FrameInput) (s s2 : State)
    (h : frameIter n sinf inp s = some s2) :
    s2.hue1 = (s.hue1 + 5) % 1536 ∧
    s2.sine1 = s.sine1 - 3 / 100 ∧
    s2.buffer = (generateFrame n sinf s).buffer ∧
    s2.start = s.start := by
  unfold frameIter at h
  dsimp only at h
  split_ifs at h with hgo
  injection h with h
  subst h
  obtain ⟨u1, u2, u3, u4⟩ := updateStats_frame n inp.now
    (sendFrame n inp.writes (advance (generateFrame n sinf s)))
  obtain ⟨w1, w2, -, -, w5, -, -⟩ := writeLoop_frame inp.writes
    (sendEntry n (advance (generateFrame n sinf s)))
  obtain ⟨g1, g2, -, -, -, -, -, g8, -⟩ := iter_frame sinf (pixelEntry s) n
  unfold sendFrame at u1 u2 u3 u4
  unfold sendFrame
  rw [u1, u2, u3, u4, w1, w2, w5, writeLoop_buffer]
  simp only [sendEntry, advance, generateFrame_eq_iter]
  rw [g1, g2, g8]
  exact ⟨rfl, rfl, trivial, rfl⟩

theorem advance_buffer (s : State) : (advance s).buffer = s.buffer := rfl

theorem generateFrame_length (n : Nat) (sinf : ℚ → ℚ) (s : State) :
    (generateFrame n sinf s).buffer.length = s.buffer.length := by
  rw [generateFrame_eq_iter, iter_length]

theorem generateFrame_low (n : Nat) (sinf : ℚ → ℚ) (s : State) (j : Nat) (hj : j < 6) :
    (generateFrame n sinf s).buffer[j]? = s.buffer[j]? := by
  rw [generateFrame_eq_iter, iter_buffer_low sinf s n j hj]

/-- After a completed write loop the channel holds exactly the buffer. -/
theorem sendFrame_wire (n : Nat) (writes : List Int) (s : State)
    (hlen : s.buffer.length = sizeofBuffer n)
    (hv : writesValid writes (sendEntry n s))
    (hexit : ¬ (sendFrame n writes s).bytesToGo > 0) :
    (sendFrame n writes s).wire = s.buffer := by
  have hinv := writeLoop_inv writes _ (sendEntry_inv n s hlen) hv
  have h := (writeInv_exit _ hinv hexit).2
  rw [writeLoop_buffer] at h
  exact h

theorem pixelLoop_frame (n : Nat) (sinf : ℚ → ℚ) (fuel : Nat) (s : State) :
    (pixelLoop n sinf fuel s).hue1 = s.hue1 ∧ (pixelLoop n sinf fuel s).sine1 = s.sine1 := by
  induction fuel generalizing s with
  | zero => exact ⟨rfl, rfl⟩
  | succ m ih =>
    unfold pixelLoop
    split_ifs
    · obtain ⟨h1, h2⟩ := ih (pixelBody sinf s)
      rw [h1, h2, pixelBody_eq]
      exact ⟨rfl, rfl⟩
    · exact ⟨rfl, rfl⟩

/-- Effect of any number of completed iterations of `for(;;)`. -/
theorem mainLoop_some (n : Nat) (sinf : ℚ → ℚ) (inputs : List FrameInput) (s s2 : State)
    (h : mainLoop n sinf inputs s = some s2) :
    s2.hue1 % 1536 = (s.hue1 + 5 * inputs.length) % 1536 ∧
    (inputs ≠ [] → s2.hue1 < 1536) ∧
    s2.buffer.length = s.buffer.length ∧
    (∀ j, j < 6 → s2.buffer[j]? = s.buffer[j]?) ∧
    s2.start = s.start := by
  induction inputs generalizing s with
  | nil =>
    unfold mainLoop at h
    injection h with h
    subst h
    simp
  | cons inp rest ih =>
    unfold mainLoop at h
    cases hf : frameIter n sinf inp s with
    | none => rw [hf] at h; simp at h
    | some s1 =>
      rw [hf, Option.some_bind] at h
      obtain ⟨f1, -, f3, f4⟩ := frameIter_some n sinf inp s s1 hf
      obtain ⟨i1, i2, i3, i4, i5⟩ := ih s1 h
      refine ⟨?_, ?_, ?_, ?_, ?_⟩
      · rw [i1, f1, List.length_cons]; omega
      · intro _
        by_cases hr : rest = []
        · subst hr
          unfold mainLoop at h
          injection h with h
          subst h
          rw [f1]
          exact Nat.mod_lt _ (by norm_num)
        · exact i2 hr
      · rw [i3, f3, generateFrame_length]
      · intro j hj
        rw [i4 j hj, f3, generateFrame_low n sinf s j hj]
      · rw [i5, f4]

theorem take6_eq (l1 l2 : List Nat) (h : ∀ j, j < 6 → l1[j]? = l2[j]?) :
    l1.take 6 = l2.take 6 := by
  apply List.ext_getElem?
  intro k
  by_cases hk : k < 6
  · rw [List.getElem?_take_of_lt hk, List.getElem?_take_of_lt hk, h k hk]
  · rw [List.getElem?_eq_none (by rw [List.length_take]; omega),
      List.getElem?_eq_none (by rw [List.length_take]; omega)]

theorem sendFrame_buffer (n : Nat) (writes : List Int) (s : State) :
    (sendFrame n writes s).buffer = s.buffer := by
  unfold sendFrame
  rw [writeLoop_buffer]
  rfl

/-- For a component and a multiplier in [0,255] the byte stored for
`(c * b) / 255` is the natural-number quotient. -/
theorem stored_byte_eq (c : Nat) (b : Int) (hc : c ≤ 255) (h0 : 0 ≤ b) (h1 : b ≤ 255) :
    (Int.tdiv ((c : Int) * b) 255 % 256).toNat = c * b.toNat / 255 := by
  obtain ⟨m, rfl⟩ : ∃ m : Nat, b = (m : Int) := ⟨b.toNat, by omega⟩
  have hm : m ≤ 255 := by omega
  have hp : c * m ≤ 65025 := by nlinarith
  rw [Int.tdiv_eq_ediv (by positivity) (by norm_num), Int.toNat_ofNat]
  have e : (c : Int) * (m : Int) = ((c * m : Nat) : Int) := by push_cast; ring
  rw [e]
  generalize c * m = x at hp
  omega

/-- State at the end of iteration `i` of the pixel loop: the colour is the
wheel colour of hue `hue1 + 40 i`, and the three bytes stored are those of
`(component * brightness) / 255`. -/
theorem iter_pixel_state (n : Nat) (sinf : ℚ → ℚ) (s : State)
    (hlen : s.buffer.length = sizeofBuffer n) (i : Nat) (hi : i < n) :
    (((pixelBody sinf)^[i + 1] (pixelEntry s)).r,
      ((pixelBody sinf)^[i + 1] (pixelEntry s)).g,
      ((pixelBody sinf)^[i + 1] (pixelEntry s)).b) = rawColour (s.hue1 + 40 * i) s ∧
    ((pixelBody sinf)^[i + 1] (pixelEntry s)).brightness =
      brightnessOf (sinf (s.sine1 + (i : ℚ) * (3 / 10))) ∧
    (generateFrame n sinf s).buffer[6 + 3 * i]? =
      some ((Int.tdiv ((((pixelBody sinf)^[i + 1] (pixelEntry s)).r : Int) *
        ((pixelBody sinf)^[i + 1] (pixelEntry s)).brightness) 255 % 256).toNat) ∧
    (generateFrame n sinf s).buffer[6 + 3 * i + 1]? =
      some ((Int.tdiv ((((pixelBody sinf)^[i + 1] (pixelEntry s)).g : Int) *
        ((pixelBody sinf)^[i + 1] (pixelEntry s)).brightness) 255 % 256).toNat) ∧
    (generateFrame n sinf s).buffer[6 + 3 * i + 2]? =
      some ((Int.tdiv ((((pixelBody sinf)^[i + 1] (pixelEntry s)).b : Int) *
        ((pixelBody sinf)^[i + 1] (pixelEntry s)).brightness) 255 % 256).toNat) := by
  obtain ⟨b1, b2, b3⟩ := iter_buffer_pixel n sinf s hlen n le_rfl i hi
  rw [← generateFrame_eq_iter] at b1 b2 b3
  have hr : ((pixelBody sinf)^[i + 1] (pixelEntry s)).r = (rawColour (s.hue1 + 40 * i) s).1 := by
    rw [iter_succ, pixelBody_eq]
    show (rawColour ((pixelBody sinf)^[i] (pixelEntry s)).hue2 _).1 = _
    rw [iter_hue2, rawColour_indep _ _ s]
  have hg : ((pixelBody sinf)^[i + 1] (pixelEntry s)).g =
      (rawColour (s.hue1 + 40 * i) s).2.1 := by
    rw [iter_succ, pixelBody_eq]
    show (rawColour ((pixelBody sinf)^[i] (pixelEntry s)).hue2 _).2.1 = _
    rw [iter_hue2, rawColour_indep _ _ s]
  have hb : ((pixelBody sinf)^[i + 1] (pixelEntry s)).b =
      (rawColour (s.hue1 + 40 * i) s).2.2 := by
    rw [iter_succ, pixelBody_eq]
    show (rawColour ((pixelBody sinf)^[i] (pixelEntry s)).hue2 _).2.2 = _
    rw [iter_hue2, rawColour_indep _ _ s]
  have hbr : ((pixelBody sinf)^[i + 1] (pixelEntry s)).brightness =
      brightnessOf (sinf (s.sine1 + (i : ℚ) * (3 / 10))) := by
    rw [iter_succ, pixelBody_eq]
    show brightnessOf (sinf ((pixelBody sinf)^[i] (pixelEntry s)).sine2) = _
    rw [iter_sine2]
  refine ⟨?_, hbr, ?_, ?_, ?_⟩
  · rw [hr, hg, hb]
  · rw [b1, hr, hbr]; rfl
  · rw [b2, hg, hbr]; rfl
  · rw [b3, hb, hbr]; rfl

/-! ## Helper lemmas: statistics -/

theorem updateStats_eq (n : Nat) (now : Int) (s : State) :
    (updateStats n now s).frame = wrapInt (s.frame + 1) ∧
    (updateStats n now s).totalBytesSent = wrapInt (s.totalBytesSent + (sizeofBuffer n : Int)) ∧
    (updateStats n now s).start = s.start ∧
    (now ≠ s.prev → (updateStats n now s).prev = now ∧
      (updateStats n now s).reports = s.reports ++
        [⟨wrapInt (s.frame + 1), wrapInt (s.totalBytesSent + (sizeofBuffer n : Int)),
          now - s.start⟩]) ∧
    (now = s.prev → (updateStats n now s).prev = s.prev ∧
      (updateStats n now s).reports = s.reports) := by
  unfold updateStats
  dsimp only
  split_ifs with h
  · exact ⟨rfl, rfl, rfl, fun _ => ⟨rfl, rfl⟩, fun h2 => absurd h2 h⟩
  · exact ⟨rfl, rfl, rfl, fun h2 => absurd h2 h, fun _ => ⟨rfl, rfl⟩⟩

/-- Statistics state on entry to the statistics code of a frame. -/
theorem preStats_eq (n : Nat) (sinf : ℚ → ℚ) (writes : List Int) (s : State) :
    (sendFrame n writes (advance (generateFrame n sinf s))).frame = s.frame ∧
    (sendFrame n writes (advance (generateFrame n sinf s))).totalBytesSent = s.totalBytesSent ∧
    (sendFrame n writes (advance (generateFrame n sinf s))).start = s.start ∧
    (sendFrame n writes (advance (generateFrame n sinf s))).prev = s.prev ∧
    (sendFrame n writes (advance (generateFrame n sinf s))).reports = s.reports := by
  obtain ⟨-, -, w3, w4, w5, w6, w7⟩ := writeLoop_frame writes
    (sendEntry n (advance (generateFrame n sinf s)))
  obtain ⟨-, -, -, -, g5, g6, -, g8, g9, -, -, g12⟩ := iter_frame sinf (pixelEntry s) n
  unfold sendFrame
  rw [w3, w4, w5, w6, w7]
  simp only [sendEntry, advance, generateFrame_eq_iter]
  rw [g5, g6, g8, g9, g12]
  exact ⟨rfl, rfl, rfl, rfl, rfl⟩

theorem frameIter_stats (n : Nat) (sinf : ℚ → ℚ) (inp : FrameInput) (s s2 : State)
    (h : frameIter n sinf inp s = some s2) :
    s2.frame = wrapInt (s.frame + 1) ∧
    s2.totalBytesSent = wrapInt (s.totalBytesSent + (sizeofBuffer n : Int)) ∧
    s2.start = s.start ∧
    (inp.now ≠ s.prev → s2.prev = inp.now ∧
      s2.reports = s.reports ++
        [⟨wrapInt (s.frame + 1), wrapInt (s.totalBytesSent + (sizeofBuffer n : Int)),
          inp.now - s.start⟩]) ∧
    (inp.now = s.prev → s2.prev = s.prev ∧ s2.reports = s.reports) := by
  unfold frameIter at h
  dsimp only at h
  split_ifs at h with hgo
  injection h with h
  subst h
  obtain ⟨p1, p2, p3, p4, p5⟩ := preStats_eq n sinf inp.writes s
  obtain ⟨u1, u2, u3, u4, u5⟩ := updateStats_eq n inp.now
    (sendFrame n inp.writes (advance (generateFrame n sinf s)))
  rw [p1, p2, p3, p4, p5] at u4
  rw [p4, p5] at u5
  rw [p1] at u1
  rw [p2] at u2
  rw [p3] at u3
  exact ⟨u1, u2, u3, u4, u5⟩

theorem wrapInt_add_left (x y : Int) : wrapInt (wrapInt x + y) = wrapInt (x + y) := by
  unfold wrapInt; omega

theorem wrapInt_small (x : Int) (h0 : -2147483648 ≤ x) (h1 : x < 2147483648) :
    wrapInt x = x := by
  unfold wrapInt; omega

theorem wrapInt_range (x : Int) : -2147483648 ≤ wrapInt x ∧ wrapInt x < 2147483648 := by
  unfold wrapInt; omega

/-- Counters after any number of completed frames. -/
theorem mainLoop_counters (n : Nat) (sinf : ℚ → ℚ) (inputs : List FrameInput) (s s2 : State)
    (h : mainLoop n sinf inputs s = some s2) (hne : inputs ≠ []) :
    s2.frame = wrapInt (s.frame + inputs.length) ∧
    s2.totalBytesSent =
      wrapInt (s.totalBytesSent + (inputs.length : Int) * (sizeofBuffer n : Int)) := by
  induction inputs generalizing s with
  | nil => exact absurd rfl hne
  | cons inp rest ih =>
    unfold mainLoop at h
    cases hf : frameIter n sinf inp s with
    | none => rw [hf] at h; simp at h
    | some s1 =>
      rw [hf, Option.some_bind] at h
      obtain ⟨f1, f2, -, -, -⟩ := frameIter_stats n sinf inp s s1 hf
      by_cases hr : rest = []
      · subst hr
        unfold mainLoop at h
        injection h with h
        subst h
        rw [f1, f2]
        simp
      · obtain ⟨i1, i2⟩ := ih s1 h hr
        rw [i1, i2, f1, f2, wrapInt_add_left, wrapInt_add_left, List.length_cons]
        constructor
        · congr 1; push_cast; ring
        · congr 1; push_cast; ring

/-- With a clock that never goes backwards every report has a divisor of at
least one second. -/
theorem mainLoop_reports (n : Nat) (sinf : ℚ → ℚ) (inputs : List FrameInput)
    (s s2 : State) (lastT : Int)
    (h : mainLoop n sinf inputs s = some s2)
    (h1 : s.start ≤ s.prev) (h2 : s.prev ≤ lastT)
    (hc : List.Chain (fun a b : Int => a ≤ b) lastT (inputs.map FrameInput.now))
    (hr : ∀ r ∈ s.reports, 1 ≤ r.elapsed) :
    (∀ r ∈ s2.reports, 1 ≤ r.elapsed) ∧ s2.start ≤ s2.prev := by
  induction inputs generalizing s lastT with
  | nil =>
    unfold mainLoop at h
    injection h with h
    subst h
    exact ⟨hr, h1⟩
  | cons inp rest ih =>
    unfold mainLoop at h
    rw [List.map_cons, List.chain_cons] at hc
    obtain ⟨hle, hc⟩ := hc
    cases hf : frameIter n sinf inp s with
    | none => rw [hf] at h; simp at h
    | some s1 =>
      rw [hf, Option.some_bind] at h
      obtain ⟨-, -, f3, f4, f5⟩ := frameIter_stats n sinf inp s s1 hf
      by_cases hne : inp.now = s.prev
      · obtain ⟨e1, e2⟩ := f5 hne
        exact ih s1 inp.now h (by rw [f3, e1]; exact h1) (by rw [e1]; omega) hc
          (by rw [e2]; exact hr)
      · obtain ⟨e1, e2⟩ := f4 hne
        refine ih s1 inp.now h (by rw [f3, e1]; omega) (by rw [e1]) hc ?_
        intro r hrm
        rw [e2, List.mem_append, List.mem_singleton] at hrm
        rcases hrm with hrm | hrm
        · exact hr r hrm
        · rw [hrm]
          show 1 ≤ inp.now - s.start
          omega

/-- The two write-loop counters always add up to what they added up to on
entry, whatever the channel returns. -/
theorem writeLoop_sum (writes : List Int) (s : State) :
    (writeLoop writes s).bytesSent + (writeLoop writes s).bytesToGo =
      s.bytesSent + s.bytesToGo ∧
    (0 ≤ s.bytesSent → 0 ≤ (writeLoop writes s).bytesSent) := by
  induction writes generalizing s with
  | nil => exact ⟨rfl, fun h => h⟩
  | cons res rest ih =>
    unfold writeLoop
    split_ifs with hgo
    · obtain ⟨i1, i2⟩ := ih (writeBody res s)
      by_cases h : res > 0
      · rw [writeBody_pos res s h] at i1 i2 ⊢
        refine ⟨by rw [i1]; show s.bytesSent + res + (s.bytesToGo - res) = _; omega, ?_⟩
        intro h0
        exact i2 (by show 0 ≤ s.bytesSent + res; omega)
      · rw [writeBody_nonpos res s h] at i1 i2 ⊢
        exact ⟨i1, i2⟩
    · exact ⟨rfl, fun h => h⟩

/-- The header stored for `n = 0`: the count bytes are those of `-1`. -/
theorem initHeader_zero :
    initHeader 0 (List.replicate (sizeofBuffer 0) 0) = [65, 100, 97, 255, 255, 85] := by
  have h4 : toUChar (Int.land ((0 : Nat) - 1 : Int) 255) = 255 := by
    have e : ((0 : Nat) : Int) - 1 = Int.negSucc 0 := rfl
    rw [e]
    show toUChar ((Nat.ldiff 255 0 : Nat) : Int) = 255
    have : Nat.ldiff 255 0 = 255 := by simp [Nat.ldiff]
    rw [this]
    rfl
  have h3 : toUChar ((((0 : Nat) : Int) - 1) >>> (8 : Nat)) = 255 := by decide
  unfold initHeader
  simp only [h3, h4]
  decide

/-! ## Helper lemmas: single-precision rounding -/

theorem roundHalfEven_intCast (z : Int) : roundHalfEven (z : ℚ) = z := by
  unfold roundHalfEven
  rw [Int.floor_intCast]
  simp

theorem roundHalfEven_ge (z : Int) (m : ℚ) (h : (z : ℚ) ≤ m) : z ≤ roundHalfEven m := by
  have hz : z ≤ ⌊m⌋ := Int.le_floor.mpr h
  unfold roundHalfEven
  split_ifs <;> omega

theorem roundHalfEven_le (m : ℚ) : (roundHalfEven m : ℚ) ≤ m + 1 / 2 := by
  have h1 := Int.floor_le m
  unfold roundHalfEven
  split_ifs with a b c
  · linarith
  · push_cast; linarith [Int.lt_floor_add_one m]
  · linarith
  · push_cast
    have : m - ⌊m⌋ = 1 / 2 := le_antisymm (not_lt.mp b) (not_lt.mp a)
    linarith

theorem log2_eq (q : ℚ) (e : Int) (hq : 0 < q) (h1 : (2 : ℚ) ^ e ≤ q)
    (h2 : q < (2 : ℚ) ^ (e + 1)) : Int.log 2 q = e := by
  have a := (Int.zpow_le_iff_le_log (b := 2) (by norm_num) hq).mp (by exact_mod_cast h1)
  have b := (Int.lt_zpow_iff_log_lt (b := 2) (by norm_num) hq).mp (by exact_mod_cast h2)
  omega

theorem ulp_eq (e : Int) (he : e ≤ 23) :
    (2 : ℚ) ^ (e - 23) = 1 / (2 : ℚ) ^ (23 - e).toNat := by
  have h : e - 23 = -(((23 - e).toNat : Nat) : Int) := by omega
  rw [h, zpow_neg, zpow_natCast, one_div]

/-- Rounding to a grid of spacing `1 / 2 ^ D` keeps a value between the
integer below it and the next one, if the gap to the next one exceeds half
the spacing. -/
theorem round_core (q u δ : ℚ) (F : Int) (D : Nat) (hu : u = 1 / (2 : ℚ) ^ D)
    (hF : (F : ℚ) ≤ q) (hδ : q + δ ≤ F + 1) (hgap : u / 2 < δ) :
    (F : ℚ) ≤ (roundHalfEven (q / u) : ℚ) * u ∧ (roundHalfEven (q / u) : ℚ) * u < F + 1 := by
  have hp : (0 : ℚ) < (2 : ℚ) ^ D := by positivity
  have hupos : 0 < u := by rw [hu]; positivity
  have hqu : q / u = q * (2 : ℚ) ^ D := by rw [hu]; field_simp
  have hlow : F * (2 : Int) ^ D ≤ roundHalfEven (q / u) := by
    apply roundHalfEven_ge
    rw [hqu]; push_cast
    exact mul_le_mul_of_nonneg_right hF hp.le
  have hhigh := roundHalfEven_le (q / u)
  have hlowq : (F : ℚ) * (2 : ℚ) ^ D ≤ (roundHalfEven (q / u) : ℚ) := by exact_mod_cast hlow
  have hud : u * (2 : ℚ) ^ D = 1 := by rw [hu]; field_simp
  constructor
  · calc (F : ℚ) = (F : ℚ) * (2 : ℚ) ^ D * u := by rw [mul_assoc, mul_comm _ u, hud, mul_one]
      _ ≤ (roundHalfEven (q / u) : ℚ) * u := mul_le_mul_of_nonneg_right hlowq hupos.le
  · calc (roundHalfEven (q / u) : ℚ) * u ≤ (q / u + 1 / 2) * u :=
          mul_le_mul_of_nonneg_right hhigh hupos.le
      _ = q + u / 2 := by field_simp; ring
      _ < q + δ := by linarith
      _ ≤ F + 1 := hδ

theorem log2_le_23 (q : ℚ) (hq : 0 < q) (h : q < 16777216) : Int.log 2 q ≤ 23 := by
  have h2 : q < ((2 : Nat) : ℚ) ^ (24 : Int) := by norm_num; exact h
  have := (Int.lt_zpow_iff_log_lt (b := 2) (by norm_num) hq).mp h2
  omega

theorem log2_ge (q : ℚ) (e : Int) (hq : 0 < q) (h : (2 : ℚ) ^ e ≤ q) : e ≤ Int.log 2 q :=
  (Int.zpow_le_iff_le_log (b := 2) (by norm_num) hq).mp (by exact_mod_cast h)

theorem zpow_log2_le (q : ℚ) (hq : 0 < q) : (2 : ℚ) ^ Int.log 2 q ≤ q := by
  have := Int.zpow_log_le_self (b := 2) (r := q) (by norm_num) hq
  exact_mod_cast this

/-- An integer below `2 ^ 24` is a `float`: converting it is exact. -/
theorem roundFloat_natCast (a : Nat) (h : a < 16777216) : roundFloat (a : ℚ) = a := by
  unfold roundFloat
  by_cases h0 : (a : ℚ) = 0
  · rw [if_pos h0, h0]
  · rw [if_neg h0]
    have hapos : (0 : ℚ) < a := by
      have : (0 : ℚ) ≤ a := Nat.cast_nonneg a
      exact lt_of_le_of_ne this (Ne.symm h0)
    rw [if_pos hapos]
    have ha1 : (1 : ℚ) ≤ a := by
      have : 0 < a := by exact_mod_cast hapos
      exact_mod_cast this
    have he1 : Int.log 2 (a : ℚ) ≤ 23 := log2_le_23 _ hapos (by exact_mod_cast h)
    have he0 : (0 : Int) ≤ Int.log 2 (a : ℚ) := log2_ge _ 0 hapos (by simpa using ha1)
    unfold roundFloatPos
    rw [max_eq_left (by omega), ulp_eq _ he1]
    have hp : (0 : ℚ) < (2 : ℚ) ^ (23 - Int.log 2 (a : ℚ)).toNat := by positivity
    have hm : (a : ℚ) / (1 / (2 : ℚ) ^ (23 - Int.log 2 (a : ℚ)).toNat) =
        (((a : Int) * (2 : Int) ^ (23 - Int.log 2 (a : ℚ)).toNat : Int) : ℚ) := by
      push_cast; field_simp
    rw [hm, roundHalfEven_intCast]
    push_cast
    field_simp

/-- The printed quotient of two integers below `2 ^ 24` is their integer
quotient: neither the conversions nor the division round across an integer. -/
theorem printedRate_exact_small (a b : Nat) (ha : a < 16777216) (hb0 : 0 < b) (hb : b < 16777216) :
    printedRate (a : Int) (b : Int) = some ((a / b : Nat) : Int) := by
  have hbq : (0 : ℚ) < b := by exact_mod_cast hb0
  unfold printedRate
  rw [if_neg (by omega)]
  congr 1
  rw [Int.cast_natCast, Int.cast_natCast, roundFloat_natCast a ha, roundFloat_natCast b hb]
  by_cases ha0 : a = 0
  · subst ha0
    simp [roundFloat, truncToInt]
  · have hapos : 0 < a := Nat.pos_of_ne_zero ha0
    have haq : (0 : ℚ) < a := by exact_mod_cast hapos
    have hq : (0 : ℚ) < (a : ℚ) / b := div_pos haq hbq
    -- the integer quotient and the gap to the next integer
    have hF1 : (((a / b : Nat) : Int) : ℚ) ≤ (a : ℚ) / b := by
      rw [le_div_iff₀ hbq]
      have : a / b * b ≤ a := Nat.div_mul_le_self a b
      exact_mod_cast this
    have hF2 : (a : ℚ) / b + 1 / b ≤ (((a / b : Nat) : Int) : ℚ) + 1 := by
      rw [← add_div, div_le_iff₀ hbq]
      have : a + 1 ≤ (a / b + 1) * b := by
        have h3 : a % b < b := Nat.mod_lt a hb0
        have h4 : b * (a / b) + a % b = a := Nat.div_add_mod a b
        have h5 : (a / b + 1) * b = b * (a / b) + b := by ring
        linarith
      exact_mod_cast this
    -- the exponent of the quotient
    have hqlt : (a : ℚ) / b < 16777216 := by
      rw [div_lt_iff₀ hbq]
      have h1 : (a : ℚ) < 16777216 := by exact_mod_cast ha
      have h2 : (1 : ℚ) ≤ b := by exact_mod_cast hb0
      nlinarith
    have he1 : Int.log 2 ((a : ℚ) / b) ≤ 23 := log2_le_23 _ hq hqlt
    have he0 : (-126 : Int) ≤ Int.log 2 ((a : ℚ) / b) := by
      apply log2_ge _ _ hq
      rw [le_div_iff₀ hbq]
      have h1 : (1 : ℚ) ≤ a := by exact_mod_cast hapos
      have h2 : (b : ℚ) < 16777216 := by exact_mod_cast hb
      have h3 : (2 : ℚ) ^ (-126 : Int) ≤ 1 / 16777216 := by norm_num
      have h4 : (2 : ℚ) ^ (-126 : Int) * b ≤ 1 / 16777216 * 16777216 :=
        mul_le_mul h3 h2.le hbq.le (by norm_num)
      have h5 : (1 / 16777216 : ℚ) * 16777216 = 1 := by norm_num
      exact (h4.trans (le_of_eq h5)).trans h1
    have hpow := zpow_log2_le _ hq
    -- half a unit in the last place is below `1 / b`
    have hgap : (2 : ℚ) ^ (Int.log 2 ((a : ℚ) / b) - 23) / 2 < 1 / b := by
      have e1 : (2 : ℚ) ^ (Int.log 2 ((a : ℚ) / b) - 23) =
          (2 : ℚ) ^ Int.log 2 ((a : ℚ) / b) / 8388608 := by
        rw [zpow_sub₀ (by norm_num)]; norm_num
      rw [e1, div_div, div_lt_div_iff₀ (by norm_num) hbq]
      have h1 : (2 : ℚ) ^ Int.log 2 ((a : ℚ) / b) * b ≤ a := by
        have := mul_le_mul_of_nonneg_right hpow hbq.le
        rwa [div_mul_cancel₀ _ hbq.ne'] at this
      have h2 : (a : ℚ) < 16777216 := by exact_mod_cast ha
      linarith
    obtain ⟨r1, r2⟩ := round_core ((a : ℚ) / b)
      ((2 : ℚ) ^ (Int.log 2 ((a : ℚ) / b) - 23)) (1 / b) ((a / b : Nat) : Int)
      (23 - Int.log 2 ((a : ℚ) / b)).toNat (ulp_eq _ he1) hF1 hF2 hgap
    have hval : roundFloat ((a : ℚ) / b) =
        (roundHalfEven ((a : ℚ) / b / (2 : ℚ) ^ (Int.log 2 ((a : ℚ) / b) - 23)) : ℚ) *
          (2 : ℚ) ^ (Int.log 2 ((a : ℚ) / b) - 23) := by
      unfold roundFloat
      rw [if_neg hq.ne', if_pos hq]
      unfold roundFloatPos
      rw [max_eq_left he0]
    rw [hval]
    have hnn : (0 : ℚ) ≤ (((a / b : Nat) : Int) : ℚ) := by positivity
    rw [truncToInt_of_nonneg _ (hnn.trans r1), Int.floor_eq_iff]
    exact ⟨r1, r2⟩

theorem roundHalfEven_le_int (z : Int) (m : ℚ) (h : m ≤ (z : ℚ)) : roundHalfEven m ≤ z := by
  have hfl : ⌊m⌋ ≤ z := by
    have := Int.floor_le_floor h
    rwa [Int.floor_intCast] at this
  by_cases hlt : ⌊m⌋ < z
  · unfold roundHalfEven
    split_ifs <;> omega
  · have heq : ⌊m⌋ = z := by omega
    have hfrac : m - (⌊m⌋ : ℚ) < 1 / 2 := by
      rw [heq]
      linarith
    unfold roundHalfEven
    rw [if_pos hfrac]
    exact hfl

/-- Conversion to `float` never takes a value of at least `2 ^ 24` below
`2 ^ 24`. -/
theorem roundFloat_ge_pow (q : ℚ) (hq : (16777216 : ℚ) ≤ q) : (16777216 : ℚ) ≤ roundFloat q := by
  have hpos : (0 : ℚ) < q := by linarith
  have he : (24 : Int) ≤ Int.log 2 q := log2_ge q 24 hpos (by norm_num; exact hq)
  have hpow := zpow_log2_le q hpos
  unfold roundFloat
  rw [if_neg hpos.ne', if_pos hpos]
  unfold roundFloatPos
  rw [max_eq_left (by omega)]
  have hu : (0 : ℚ) < (2 : ℚ) ^ (Int.log 2 q - 23) := by positivity
  have hsplit : (2 : ℚ) ^ Int.log 2 q = 8388608 * (2 : ℚ) ^ (Int.log 2 q - 23) := by
    rw [zpow_sub₀ (by norm_num)]
    norm_num
    ring
  have hm : (((8388608 : Int) : ℚ)) ≤ q / (2 : ℚ) ^ (Int.log 2 q - 23) := by
    rw [le_div_iff₀ hu]
    push_cast
    rw [← hsplit]
    exact hpow
  have hr := roundHalfEven_ge 8388608 _ hm
  have hrq : (8388608 : ℚ) ≤ (roundHalfEven (q / (2 : ℚ) ^ (Int.log 2 q - 23)) : ℚ) := by
    exact_mod_cast hr
  have h24 : (16777216 : ℚ) ≤ (2 : ℚ) ^ Int.log 2 q := by
    have : (2 : ℚ) ^ (24 : Int) ≤ (2 : ℚ) ^ Int.log 2 q :=
      zpow_le_zpow_right₀ (by norm_num) he
    norm_num at this
    exact this
  calc (16777216 : ℚ) ≤ (2 : ℚ) ^ Int.log 2 q := h24
    _ = 8388608 * (2 : ℚ) ^ (Int.log 2 q - 23) := hsplit
    _ ≤ (roundHalfEven (q / (2 : ℚ) ^ (Int.log 2 q - 23)) : ℚ) *
          (2 : ℚ) ^ (Int.log 2 q - 23) := mul_le_mul_of_nonneg_right hrq hu.le

/-- A positive value of at most `1 - 2 ^ -24`, the largest `float` below 1,
is not rounded up to 1. -/
theorem roundFloat_lt_one (x : ℚ) (h0 : 0 < x) (h1 : x ≤ 16777215 / 16777216) :
    0 ≤ roundFloat x ∧ roundFloat x < 1 := by
  have hlog : Int.log 2 x < 0 := by
    have hx1 : x < ((2 : Nat) : ℚ) ^ (0 : Int) := by norm_num; linarith
    exact (Int.lt_zpow_iff_log_lt (b := 2) (by norm_num) h0).mp hx1
  have hE : max (Int.log 2 x) (-126) ≤ -1 := max_le (by omega) (by norm_num)
  unfold roundFloat
  rw [if_neg h0.ne', if_pos h0]
  unfold roundFloatPos
  generalize max (Int.log 2 x) (-126) = E at hE
  rw [ulp_eq E (by omega)]
  obtain ⟨D, hD⟩ : ∃ D : Nat, (23 - E).toNat = 24 + D := ⟨(23 - E).toNat - 24, by omega⟩
  rw [hD]
  have hp : (0 : ℚ) < (2 : ℚ) ^ (24 + D) := by positivity
  have hpd : (0 : ℚ) < (2 : ℚ) ^ D := by positivity
  have hsplit : (2 : ℚ) ^ (24 + D) = 16777216 * (2 : ℚ) ^ D := by rw [pow_add]; norm_num
  have hxu : x / (1 / (2 : ℚ) ^ (24 + D)) = x * (2 : ℚ) ^ (24 + D) := by field_simp
  have hup : x / (1 / (2 : ℚ) ^ (24 + D)) ≤ (((16777215 : Int) * (2 : Int) ^ D : Int) : ℚ) := by
    rw [hxu, hsplit]
    push_cast
    have := mul_le_mul_of_nonneg_right h1 (by positivity : (0 : ℚ) ≤ 16777216 * (2 : ℚ) ^ D)
    calc x * (16777216 * (2 : ℚ) ^ D) ≤ 16777215 / 16777216 * (16777216 * (2 : ℚ) ^ D) := this
      _ = 16777215 * (2 : ℚ) ^ D := by ring
  have hlo : (((0 : Int) : ℚ)) ≤ x / (1 / (2 : ℚ) ^ (24 + D)) := by
    rw [hxu]; push_cast; positivity
  have r1 := roundHalfEven_ge 0 _ hlo
  have r2 := roundHalfEven_le_int _ _ hup
  have r1q : (0 : ℚ) ≤ (roundHalfEven (x / (1 / (2 : ℚ) ^ (24 + D))) : ℚ) := by
    exact_mod_cast r1
  have r2q : (roundHalfEven (x / (1 / (2 : ℚ) ^ (24 + D))) : ℚ) ≤ 16777215 * (2 : ℚ) ^ D := by
    exact_mod_cast r2
  constructor
  · positivity
  · rw [hsplit]
    have hden : (0 : ℚ) < 16777216 * (2 : ℚ) ^ D := by positivity
    rw [mul_one_div, div_lt_one hden]
    calc (roundHalfEven (x / (1 / (16777216 * (2 : ℚ) ^ D))) : ℚ)
        ≤ 16777215 * (2 : ℚ) ^ D := by rw [← hsplit]; exact r2q
      _ < 16777216 * (2 : ℚ) ^ D := by nlinarith

/-- The printed quotient of a counter below `2 ^ 24` by any positive number
of seconds is their integer quotient. -/
theorem printedRate_exact (a b : Nat) (ha : a < 16777216) (hb0 : 0 < b) :
    printedRate (a : Int) (b : Int) = some ((a / b : Nat) : Int) := by
  by_cases hb : b < 16777216
  · exact printedRate_exact_small a b ha hb0 hb
  · have hdiv : a / b = 0 := Nat.div_eq_of_lt (by omega)
    rw [hdiv]
    unfold printedRate
    rw [if_neg (by omega)]
    congr 1
    rw [Int.cast_natCast, Int.cast_natCast, roundFloat_natCast a ha]
    have hB : (16777216 : ℚ) ≤ roundFloat (b : ℚ) :=
      roundFloat_ge_pow _ (by exact_mod_cast not_lt.mp hb)
    by_cases ha0 : a = 0
    · subst ha0
      simp [roundFloat, truncToInt]
    · have haq : (0 : ℚ) < a := by exact_mod_cast Nat.pos_of_ne_zero ha0
      have hal : (a : ℚ) ≤ 16777215 := by
        have : a ≤ 16777215 := by omega
        exact_mod_cast this
      have hBpos : (0 : ℚ) < roundFloat (b : ℚ) := by linarith
      have hx0 : (0 : ℚ) < (a : ℚ) / roundFloat (b : ℚ) := div_pos haq hBpos
      have hx1 : (a : ℚ) / roundFloat (b : ℚ) ≤ 16777215 / 16777216 := by
        rw [div_le_div_iff₀ hBpos (by norm_num)]
        nlinarith
      obtain ⟨r0, r1⟩ := roundFloat_lt_one _ hx0 hx1
      rw [truncToInt_of_nonneg _ r0, Int.floor_eq_iff]
      constructor
      · simpa using r0
      · simpa using r1

/-- The byte counter after 207977 frames of 81 bytes is not a `float`: its
conversion rounds down to the even neighbour. -/
theorem roundFloat_16846137 : roundFloat (16846137 : ℚ) = 16846136 := by
  have hl : Int.log 2 (16846137 : ℚ) = 24 := log2_eq _ 24 (by norm_num) (by norm_num) (by norm_num)
  have hf : ⌊(16846137 : ℚ) / 2⌋ = 8423068 := by rw [Int.floor_eq_iff]; norm_num
  unfold roundFloat
  rw [if_neg (by norm_num), if_pos (by norm_num)]
  unfold roundFloatPos
  rw [hl]
  have hu : (2 : ℚ) ^ (max (24 : Int) (-126) - 23) = 2 := by norm_num
  rw [hu]
  unfold roundHalfEven
  rw [hf]
  norm_num

theorem roundFloat_quotient :
    roundFloat ((16846136 : ℚ) / 2079) = 16594943 / 2048 := by
  have hl : Int.log 2 ((16846136 : ℚ) / 2079) = 12 :=
    log2_eq _ 12 (by norm_num) (by norm_num) (by norm_num)
  have hf : ⌊(16846136 : ℚ) / 2079 / (1 / 2048)⌋ = 16594943 := by
    rw [Int.floor_eq_iff]; norm_num
  unfold roundFloat
  rw [if_neg (by norm_num), if_pos (by norm_num)]
  unfold roundFloatPos
  rw [hl]
  have hu : (2 : ℚ) ^ (max (12 : Int) (-126) - 23) = 1 / 2048 := by norm_num
  rw [hu]
  unfold roundHalfEven
  rw [hf]
  norm_num

theorem printedRate_16846137 : printedRate 16846137 2079 = some 8102 := by
  unfold printedRate
  rw [if_neg (by norm_num)]
  congr 1
  have h1 : ((16846137 : Int) : ℚ) = (16846137 : ℚ) := by norm_num
  have h2 : ((2079 : Int) : ℚ) = ((2079 : Nat) : ℚ) := by norm_num
  rw [h1, h2, roundFloat_16846137, roundFloat_natCast 2079 (by norm_num)]
  have h3 : (16846136 : ℚ) / ((2079 : Nat) : ℚ) = (16846136 : ℚ) / 2079 := by norm_num
  rw [h3, roundFloat_quotient, truncToInt_of_nonneg _ (by norm_num), Int.floor_eq_iff]
  norm_num

/-- The frame counter after 16777299 frames is not a `float`: its
conversion rounds up to the even neighbour. -/
theorem roundFloat_16777299 : roundFloat (16777299 : ℚ) = 16777300 := by
  have hl : Int.log 2 (16777299 : ℚ) = 24 := log2_eq _ 24 (by norm_num) (by norm_num) (by norm_num)
  have hf : ⌊(16777299 : ℚ) / 2⌋ = 8388649 := by rw [Int.floor_eq_iff]; norm_num
  unfold roundFloat
  rw [if_neg (by norm_num), if_pos (by norm_num)]
  unfold roundFloatPos
  rw [hl]
  have hu : (2 : ℚ) ^ (max (24 : Int) (-126) - 23) = 2 := by norm_num
  rw [hu]
  unfold roundHalfEven
  rw [hf]
  norm_num

theorem printedRate_16777299 : printedRate 16777299 167773 = some 100 := by
  unfold printedRate
  rw [if_neg (by norm_num)]
  congr 1
  have h1 : ((16777299 : Int) : ℚ) = (16777299 : ℚ) := by norm_num
  have h2 : ((167773 : Int) : ℚ) = ((167773 : Nat) : ℚ) := by norm_num
  rw [h1, h2, roundFloat_16777299, roundFloat_natCast 167773 (by norm_num)]
  have h3 : (16777300 : ℚ) / ((167773 : Nat) : ℚ) = ((100 : Nat) : ℚ) := by norm_num
  rw [h3, roundFloat_natCast 100 (by norm_num), truncToInt_of_nonneg _ (by norm_num),
    Int.floor_eq_iff]
  norm_num

/-! ## Helper lemmas: whole runs -/

theorem mainLoop_cons (n : Nat) (sinf : ℚ → ℚ) (x : FrameInput) (rest : List FrameInput)
    (s : State) :
    mainLoop n sinf (x :: rest) s = (frameIter n sinf x s).bind (mainLoop n sinf rest) := rfl

theorem mainLoop_append (n : Nat) (sinf : ℚ → ℚ) (xs ys : List FrameInput) (s : State) :
    mainLoop n sinf (xs ++ ys) s = (mainLoop n sinf xs s).bind (mainLoop n sinf ys) := by
  induction xs generalizing s with
  | nil => rfl
  | cons x rest ih =>
    rw [List.cons_append, mainLoop_cons, mainLoop_cons]
    cases hf : frameIter n sinf x s with
    | none => rfl
    | some s1 => rw [Option.some_bind, Option.some_bind, ih]

theorem mainLoop_single (n : Nat) (sinf : ℚ → ℚ) (x : FrameInput) (s : State) :
    mainLoop n sinf [x] s = frameIter n sinf x s := by
  rw [mainLoop_cons]
  cases frameIter n sinf x s with
  | none => rfl
  | some s1 => rfl

/-- A channel that takes the whole frame in one call ends the write loop. -/
theorem sendFrame_full (n : Nat) (s : State) :
    ¬ (sendFrame n [(sizeofBuffer n : Int)] s).bytesToGo > 0 := by
  have hpos : (sizeofBuffer n : Int) > 0 := by unfold sizeofBuffer; push_cast; omega
  unfold sendFrame writeLoop
  have h1 : (sendEntry n s).bytesToGo = (sizeofBuffer n : Int) := rfl
  rw [if_pos (by rw [h1]; exact hpos), writeBody_pos _ _ hpos]
  unfold writeLoop
  show ¬ (sendEntry n s).bytesToGo - (sizeofBuffer n : Int) > 0
  rw [h1]; omega

theorem frameIter_full (n : Nat) (sinf : ℚ → ℚ) (t : Int) (s : State) :
    (frameIter n sinf ⟨[(sizeofBuffer n : Int)], t⟩ s).isSome = true := by
  unfold frameIter
  dsimp only
  rw [if_neg (sendFrame_full n _)]
  rfl

/-- Frames sent whole while the clock still shows the last-report second:
the run completes and prints nothing. -/
theorem mainLoop_quiet (n : Nat) (sinf : ℚ → ℚ) (k : Nat) (s : State) :
    ∃ s2, mainLoop n sinf (List.replicate k ⟨[(sizeofBuffer n : Int)], s.prev⟩) s = some s2 ∧
      s2.prev = s.prev ∧ s2.reports = s.reports ∧ s2.start = s.start := by
  induction k generalizing s with
  | zero => exact ⟨s, rfl, rfl, rfl, rfl⟩
  | succ k ih =>
    rw [List.replicate_succ, mainLoop_cons]
    obtain ⟨s1, hs1⟩ := Option.isSome_iff_exists.mp (frameIter_full n sinf s.prev s)
    obtain ⟨-, -, f3, -, f5⟩ := frameIter_stats n sinf _ s s1 hs1
    obtain ⟨e1, e2⟩ := f5 rfl
    obtain ⟨s2, h2, p1, p2, p3⟩ := ih s1
    rw [hs1, Option.some_bind]
    rw [e1] at h2
    exact ⟨s2, h2, by rw [p1, e1], by rw [p2, e2], by rw [p3, f3]⟩

/-- A run of `k` frames within the last-report second followed by one frame
read at a different second `t`: counters and reports afterwards. -/
theorem mainLoop_quiet_then_report (n : Nat) (sinf : ℚ → ℚ) (k : Nat) (t : Int) (s : State)
    (hne : t ≠ s.prev) :
    ∃ s2, mainLoop n sinf
        (List.replicate k ⟨[(sizeofBuffer n : Int)], s.prev⟩ ++ [⟨[(sizeofBuffer n : Int)], t⟩])
        s = some s2 ∧
      s2.frame = wrapInt (s.frame + ((k + 1 : Nat) : Int)) ∧
      s2.totalBytesSent =
        wrapInt (s.totalBytesSent + ((k + 1 : Nat) : Int) * (sizeofBuffer n : Int)) ∧
      s2.reports = s.reports ++
        [⟨wrapInt (s.frame + ((k + 1 : Nat) : Int)),
          wrapInt (s.totalBytesSent + ((k + 1 : Nat) : Int) * (sizeofBuffer n : Int)),
          t - s.start⟩] := by
  obtain ⟨s1, hs1, p1, p2, p3⟩ := mainLoop_quiet n sinf k s
  obtain ⟨s2, hs2⟩ := Option.isSome_iff_exists.mp (frameIter_full n sinf t s1)
  obtain ⟨f1, f2, -, f4, -⟩ := frameIter_stats n sinf _ s1 s2 hs2
  have hrun : mainLoop n sinf
      (List.replicate k ⟨[(sizeofBuffer n : Int)], s.prev⟩ ++ [⟨[(sizeofBuffer n : Int)], t⟩])
      s = some s2 := by
    rw [mainLoop_append, hs1, Option.some_bind, mainLoop_single, hs2]
  obtain ⟨c1, c2⟩ := mainLoop_counters n sinf _ s s2 hrun (by simp)
  rw [List.length_append, List.length_replicate, List.length_singleton] at c1 c2
  obtain ⟨-, e2⟩ := f4 (by rw [p1]; exact hne)
  refine ⟨s2, hrun, c1, c2, ?_⟩
  rw [e2, ← f1, ← f2, c1, c2, p2, p3]

/-- Counters after `k` completed frames from start-up, each while it fits in
a 32-bit `int`. -/
theorem startup_counters (n : Nat) (sinf : ℚ → ℚ) (now : Int) (s0 : State)
    (inputs : List FrameInput) (s2 : State)
    (h : mainLoop n sinf inputs (startup n now s0) = some s2) :
    (inputs.length < 2147483648 → s2.frame = (inputs.length : Int)) ∧
    (inputs.length * (6 + 3 * n) < 2147483648 →
      s2.totalBytesSent = ((inputs.length * (6 + 3 * n) : Nat) : Int)) := by
  by_cases hne : inputs = []
  · subst hne
    unfold mainLoop at h
    injection h with h
    subst h
    refine ⟨fun _ => rfl, fun _ => ?_⟩
    rw [List.length_nil, Nat.zero_mul]
    rfl
  · obtain ⟨c1, c2⟩ := mainLoop_counters n sinf inputs _ s2 h hne
    have hf0 : (startup n now s0).frame = 0 := rfl
    have hb0 : (startup n now s0).totalBytesSent = 0 := rfl
    have hsz : ((sizeofBuffer n : Nat) : Int) = 6 + 3 * (n : Int) := by
      unfold sizeofBuffer; push_cast; ring
    have hprod : ((inputs.length * (6 + 3 * n) : Nat) : Int) =
        (inputs.length : Int) * (6 + 3 * (n : Int)) := by push_cast; ring
    rw [hf0, zero_add] at c1
    rw [hb0, zero_add, hsz, ← hprod] at c2
    constructor
    · intro hk
      rw [c1, wrapInt_small _ (by omega) (by omega)]
    · intro hk
      rw [c2, wrapInt_small _ (by omega) (by omega)]

/-- From start-up: `k` frames within the start second and one more frame read
at a later second `t`; counters and the single report afterwards. -/
theorem startup_quiet_then_report (n : Nat) (sinf : ℚ → ℚ) (now : Int) (s0 : State)
    (k : Nat) (t : Int) (ht : t ≠ now) :
    ∃ s2, mainLoop n sinf
        (List.replicate k ⟨[(sizeofBuffer n : Int)], now⟩ ++ [⟨[(sizeofBuffer n : Int)], t⟩])
        (startup n now s0) = some s2 ∧
      s2.frame = wrapInt ((k : Int) + 1) ∧
      s2.totalBytesSent = wrapInt (((k : Int) + 1) * (sizeofBuffer n : Int)) ∧
      s2.reports =
        [⟨wrapInt ((k : Int) + 1), wrapInt (((k : Int) + 1) * (sizeofBuffer n : Int)),
          t - now⟩] := by
  obtain ⟨s2, h1, h2, h3, h4⟩ :=
    mainLoop_quiet_then_report n sinf k t (startup n now s0) ht
  have e1 : (startup n now s0).frame + ((k + 1 : Nat) : Int) = (k : Int) + 1 := by
    show (0 : Int) + ((k + 1 : Nat) : Int) = (k : Int) + 1
    push_cast; ring
  have e2 : (startup n now s0).totalBytesSent + ((k + 1 : Nat) : Int) * (sizeofBuffer n : Int) =
      ((k : Int) + 1) * (sizeofBuffer n : Int) := by
    show (0 : Int) + ((k + 1 : Nat) : Int) * (sizeofBuffer n : Int) = _
    push_cast; ring
  rw [e1] at h2 h4
  rw [e2] at h3 h4
  exact ⟨s2, h1, h2, h3, h4⟩

/-! ## The claims -/

/-- C1: for every pixel count `1 ≤ n ≤ 65536` the buffer left by start-up
begins with 'A','d','a'; byte 3 is `(n-1) / 256`, which fits in one byte,
byte 4 is `(n-1) % 256`, and together they are `n-1` in big-endian order. -/
theorem header_magic_and_count (n : Nat) (now : Int) (s : State)
    (h1 : 1 ≤ n) (h2 : n ≤ 65536) :
    (startup n now s).buffer[0]? = some 0x41 ∧
    (startup n now s).buffer[1]? = some 0x64 ∧
    (startup n now s).buffer[2]? = some 0x61 ∧
    (startup n now s).buffer[3]? = some ((n - 1) / 256) ∧
    (startup n now s).buffer[4]? = some ((n - 1) % 256) ∧
    (n - 1) / 256 < 256 ∧
    256 * ((n - 1) / 256) + (n - 1) % 256 = n - 1 := by
  have hH := countHigh_eq n h1 h2
  have hL := countLow_eq n h1
  refine ⟨?_, ?_, ?_, ?_, ?_, ?_, ?_⟩
  · simp [startup, initHeader, List.getElem?_set, sizeofBuffer]
  · simp [startup, initHeader, List.getElem?_set, sizeofBuffer]; omega
  · simp [startup, initHeader, List.getElem?_set, sizeofBuffer]; omega
  · simp [startup, initHeader, List.getElem?_set, sizeofBuffer, hH]; omega
  · simp [startup, initHeader, List.getElem?_set, sizeofBuffer, hL]; omega
  · omega
  · omega

/-- Witness of `header_magic_and_count` at the built-in `N_LEDS = 25`: the
count bytes are 0x00 and 0x18. -/
theorem header_magic_and_count_witness :
    1 ≤ 25 ∧ 25 ≤ 65536 ∧
    ((startup 25 0 blank).buffer[0]? = some 0x41 ∧
    (startup 25 0 blank).buffer[1]? = some 0x64 ∧
    (startup 25 0 blank).buffer[2]? = some 0x61 ∧
    (startup 25 0 blank).buffer[3]? = some 0x00 ∧
    (startup 25 0 blank).buffer[4]? = some 0x18 ∧
    (25 - 1) / 256 < 256 ∧
    256 * ((25 - 1) / 256) + (25 - 1) % 256 = 25 - 1) :=
  ⟨by decide, by decide, header_magic_and_count 25 0 blank (by decide) (by decide)⟩

theorem initHeader_idem (n : Nat) (buf : List Nat) :
    initHeader n (initHeader n buf) = initHeader n buf := by
  apply List.ext_getElem?
  intro k
  simp only [initHeader, List.getD_eq_getElem?_getD, List.getElem?_set, List.length_set]
  split_ifs <;> simp_all

/-- C2: for every pixel count `n`, header byte 5 is byte 3 XOR byte 4 XOR
0x55 (0x4D for the built-in 25 pixels); the header does not depend on
anything but `n`, and building it again over the built buffer changes
nothing. -/
theorem header_checksum (n : Nat) (now : Int) (s : State) :
    (startup n now s).buffer[5]? =
      some ((startup n now s).buffer.getD 3 0 ^^^ (startup n now s).buffer.getD 4 0 ^^^ 0x55) ∧
    (startup N_LEDS now s).buffer[5]? = some 0x4D ∧
    (∀ (now2 : Int) (s2 : State), (startup n now2 s2).buffer = (startup n now s).buffer) ∧
    initHeader n (startup n now s).buffer = (startup n now s).buffer := by
  refine ⟨?_, ?_, ?_, ?_⟩
  · have hx : toUChar (((n : Int) - 1) >>> (8 : Nat)) ^^^
        toUChar (Int.land ((n : Int) - 1) 255) ^^^ 85 < 256 := by
      have h3 := toUChar_lt (((n : Int) - 1) >>> (8 : Nat))
      have h4 := toUChar_lt (Int.land ((n : Int) - 1) 255)
      exact Nat.xor_lt_two_pow (n := 8) (Nat.xor_lt_two_pow (n := 8) h3 h4) (by norm_num)
    have l3 : 3 < 6 + n * 3 := by omega
    have l4 : 4 < 6 + n * 3 := by omega
    have l5 : 5 < 6 + n * 3 := by omega
    simp [startup, initHeader, List.getElem?_set, sizeofBuffer, l3, l4, l5,
      toUChar_natCast _ hx]
  · simp [startup, initHeader, List.getElem?_set, sizeofBuffer, N_LEDS]
    decide
  · intro now2 s2
    rfl
  · exact initHeader_idem n _


/-- C3: the hue-to-RGB switch maps the six sextant boundaries to the pure
primary and secondary colours, whatever `r`, `g`, `b` held before. -/
theorem hueToRGB_boundaries (s : State) :
    rawColour 0 s = (255, 0, 0) ∧
    rawColour 256 s = (255, 255, 0) ∧
    rawColour 512 s = (0, 255, 0) ∧
    rawColour 768 s = (0, 255, 255) ∧
    rawColour 1024 s = (0, 0, 255) ∧
    rawColour 1280 s = (255, 0, 255) := by
  refine ⟨?_, ?_, ?_, ?_, ?_, ?_⟩ <;> rw [rawColour_eq] <;> norm_num


/-- C4, as stated, fails: the conversion of `0.125 * 255 = 31.875` gives the
brightness multiplier 31 and the red byte `(255 * 31) / 255 = 31`; so it is
not the case that, whenever `sin 0 = 0`, the first pixel of the first frame
of a 25-pixel strand has multiplier 32 and payload bytes 32, 0, 0. -/
theorem first_pixel_not_32 :
    brightnessOf 0 = 31 ∧ scale 255 (brightnessOf 0) = 31 ∧
    ¬ (∀ sinf : ℚ → ℚ, sinf 0 = 0 →
        brightnessOf (sinf (startup 25 0 blank).sine1) = 32 ∧
        ((generateFrame 25 sinf (startup 25 0 blank)).buffer.drop 6).take 3 = [32, 0, 0]) := by
  refine ⟨brightnessOf_zero, ?_, ?_⟩
  · rw [brightnessOf_zero]; unfold scale; decide
  · intro h
    have h1 := (h (fun _ => 0) rfl).1
    rw [brightnessOf_zero] at h1
    exact absurd h1 (by decide)

/-- C4, amended: for 25 pixels, hue base 0 and brightness phase 0 (the state
left by start-up) and `sin 0 = 0`, the first pixel has raw colour (255,0,0),
brightness multiplier 31 (the conversion of 31.875 truncates) and final
colour (31,0,0): buffer bytes 6, 7, 8 are 31, 0, 0, and so are bytes 6, 7, 8
received by the channel once the write loop has exited. -/
theorem first_pixel_scenario (sinf : ℚ → ℚ) (now : Int) (s0 : State) (hsin : sinf 0 = 0) :
    (startup 25 now s0).hue1 = 0 ∧ (startup 25 now s0).sine1 = 0 ∧
    rawColour (startup 25 now s0).hue1 (startup 25 now s0) = (255, 0, 0) ∧
    brightnessOf (sinf (startup 25 now s0).sine1) = 31 ∧
    (scale 255 31, scale 0 31, scale 0 31) = (31, 0, 0) ∧
    ((generateFrame 25 sinf (startup 25 now s0)).buffer.drop 6).take 3 = [31, 0, 0] ∧
    (∀ writes : List Int,
      writesValid writes (sendEntry 25 (advance (generateFrame 25 sinf (startup 25 now s0)))) →
      ¬ (sendFrame 25 writes (advance (generateFrame 25 sinf (startup 25 now s0)))).bytesToGo > 0 →
      ((sendFrame 25 writes
        (advance (generateFrame 25 sinf (startup 25 now s0)))).wire.drop 6).take 3 = [31, 0, 0]) := by
  have hlen : (startup 25 now s0).buffer.length = sizeofBuffer 25 := startup_buffer_length _ _ _
  have hbr : brightnessOf (sinf (startup 25 now s0).sine1) = 31 := by
    show brightnessOf (sinf 0) = 31
    rw [hsin, brightnessOf_zero]
  have hraw : rawColour (startup 25 now s0).hue1 (startup 25 now s0) = (255, 0, 0) := by
    show rawColour 0 _ = _
    rw [rawColour_eq]; norm_num
  have hsc : (scale 255 31, scale 0 31, scale 0 31) = ((31 : Int), (0 : Int), (0 : Int)) := by
    unfold scale; decide
  have hbuf : ((generateFrame 25 sinf (startup 25 now s0)).buffer.drop 6).take 3 = [31, 0, 0] := by
    obtain ⟨b1, b2, b3⟩ := iter_buffer_pixel 25 sinf (startup 25 now s0) hlen 25 le_rfl 0
      (by norm_num)
    have e0 : (startup 25 now s0).hue1 + 40 * 0 = (startup 25 now s0).hue1 := by ring
    have e1 : (startup 25 now s0).sine1 + ((0 : Nat) : ℚ) * (3 / 10) =
        (startup 25 now s0).sine1 := by push_cast; ring
    rw [e0, e1, hbr, hraw, ← generateFrame_eq_iter] at b1 b2 b3
    have v1 : toUChar (scale 255 31) = 31 := by unfold toUChar scale; decide
    have v0 : toUChar (scale 0 31) = 0 := by unfold toUChar scale; decide
    rw [v1] at b1
    rw [v0] at b2 b3
    apply List.ext_getElem?
    intro k
    rcases k with _ | _ | _ | k
    · simp [List.getElem?_take, List.getElem?_drop, b1]
    · simp [List.getElem?_take, List.getElem?_drop, b2]
    · simp [List.getElem?_take, List.getElem?_drop, b3]
    · simp [List.getElem?_take]
  refine ⟨rfl, rfl, hraw, hbr, hsc, hbuf, ?_⟩
  intro writes hv hexit
  have hlen2 : (advance (generateFrame 25 sinf (startup 25 now s0))).buffer.length =
      sizeofBuffer 25 := by
    rw [advance_buffer, generateFrame_length, hlen]
  rw [sendFrame_wire 25 writes (advance (generateFrame 25 sinf (startup 25 now s0))) hlen2 hv hexit,
    advance_buffer]
  exact hbuf

/-- Witness of `first_pixel_scenario` for the sine stand-in that is zero
everywhere. -/
theorem first_pixel_scenario_witness :
    (fun _ : ℚ => (0 : ℚ)) 0 = 0 ∧
    ((generateFrame 25 (fun _ => 0) (startup 25 0 blank)).buffer.drop 6).take 3 = [31, 0, 0] :=
  ⟨rfl, (first_pixel_scenario (fun _ => 0) 0 blank rfl).2.2.2.2.2.1⟩

/-- C5: for every hue (in particular `hueBase + 40 * i` for any pixel of any
strand) and every brightness multiplier in [0,255], each of the three values
`(component * brightness) / 255` lies in [0,255], so the byte stored equals
the value computed: the store never wraps. -/
theorem pixel_components_fit_byte (hue : Nat) (s : State) (br : Int)
    (h0 : 0 ≤ br) (h1 : br ≤ 255) :
    (0 ≤ scale (rawColour hue s).1 br ∧ scale (rawColour hue s).1 br ≤ 255 ∧
      ((toUChar (scale (rawColour hue s).1 br) : Nat) : Int) = scale (rawColour hue s).1 br) ∧
    (0 ≤ scale (rawColour hue s).2.1 br ∧ scale (rawColour hue s).2.1 br ≤ 255 ∧
      ((toUChar (scale (rawColour hue s).2.1 br) : Nat) : Int) =
        scale (rawColour hue s).2.1 br) ∧
    (0 ≤ scale (rawColour hue s).2.2 br ∧ scale (rawColour hue s).2.2 br ≤ 255 ∧
      ((toUChar (scale (rawColour hue s).2.2 br) : Nat) : Int) =
        scale (rawColour hue s).2.2 br) := by
  obtain ⟨hr, hg, hb⟩ := rawColour_le hue s
  exact ⟨scale_range _ br hr h0 h1, scale_range _ br hg h0 h1, scale_range _ br hb h0 h1⟩

/-- Witness of `pixel_components_fit_byte`: hue `1535 + 40 * 24` (the last
pixel of a 25-pixel strand at the largest hue base) at full brightness. -/
theorem pixel_components_fit_byte_witness :
    (0 : Int) ≤ 255 ∧ (255 : Int) ≤ 255 ∧
    ((0 ≤ scale (rawColour (1535 + 40 * 24) blank).1 255 ∧
      scale (rawColour (1535 + 40 * 24) blank).1 255 ≤ 255 ∧
      ((toUChar (scale (rawColour (1535 + 40 * 24) blank).1 255) : Nat) : Int) =
        scale (rawColour (1535 + 40 * 24) blank).1 255) ∧
    (0 ≤ scale (rawColour (1535 + 40 * 24) blank).2.1 255 ∧
      scale (rawColour (1535 + 40 * 24) blank).2.1 255 ≤ 255 ∧
      ((toUChar (scale (rawColour (1535 + 40 * 24) blank).2.1 255) : Nat) : Int) =
        scale (rawColour (1535 + 40 * 24) blank).2.1 255) ∧
    (0 ≤ scale (rawColour (1535 + 40 * 24) blank).2.2 255 ∧
      scale (rawColour (1535 + 40 * 24) blank).2.2 255 ≤ 255 ∧
      ((toUChar (scale (rawColour (1535 + 40 * 24) blank).2.2 255) : Nat) : Int) =
        scale (rawColour (1535 + 40 * 24) blank).2.2 255)) :=
  ⟨by decide, by decide, pixel_components_fit_byte (1535 + 40 * 24) blank 255 (by decide) (by decide)⟩

/-- C6: render a frame from any state whose buffer has `6 + 3 n` bytes, take
a pixel `i < n`, let `h = hue1 + 40 i` and let `S` be the state at the end
of iteration `i` of the pixel loop, so that `S.brightness` is the brightness
multiplier the loop computed for that pixel.  Then `(S.r, S.g, S.b)` is the
wheel colour of hue `h` (sextant `h / 256 mod 6`, fraction `h mod 256`), and
the bytes of the rendered frame at `6+3i`, `6+3i+1`, `6+3i+2` are, in the
order R, G, B, the components multiplied by the multiplier and divided by
255 with truncation, stored in a byte; for a multiplier in [0,255], which is
what a sine of range [-1,1] gives, they are the quotients `c * b / 255`
themselves.  Once the write loop has exited against a valid channel the
bytes received are that buffer, so the same holds at the same offsets of
the wire frame. -/
theorem payload_bytes (n : Nat) (sinf : ℚ → ℚ) (s : State) (i h : Nat) (S : State)
    (hlen : s.buffer.length = sizeofBuffer n) (hi : i < n)
    (hh : h = s.hue1 + 40 * i)
    (hS : S = (pixelBody sinf)^[i + 1] (pixelEntry s)) :
    (S.r, S.g, S.b) =
      (if h / 256 % 6 = 0 then (255, h % 256, 0)
      else if h / 256 % 6 = 1 then (255 - h % 256, 255, 0)
      else if h / 256 % 6 = 2 then (0, 255, h % 256)
      else if h / 256 % 6 = 3 then (0, 255 - h % 256, 255)
      else if h / 256 % 6 = 4 then (h % 256, 0, 255)
      else (255, 0, 255 - h % 256)) ∧
    (generateFrame n sinf s).buffer[6 + 3 * i]? =
      some ((Int.tdiv ((S.r : Int) * S.brightness) 255 % 256).toNat) ∧
    (generateFrame n sinf s).buffer[6 + 3 * i + 1]? =
      some ((Int.tdiv ((S.g : Int) * S.brightness) 255 % 256).toNat) ∧
    (generateFrame n sinf s).buffer[6 + 3 * i + 2]? =
      some ((Int.tdiv ((S.b : Int) * S.brightness) 255 % 256).toNat) ∧
    (0 ≤ S.brightness → S.brightness ≤ 255 →
      (generateFrame n sinf s).buffer[6 + 3 * i]? = some (S.r * S.brightness.toNat / 255) ∧
      (generateFrame n sinf s).buffer[6 + 3 * i + 1]? = some (S.g * S.brightness.toNat / 255) ∧
      (generateFrame n sinf s).buffer[6 + 3 * i + 2]? =
        some (S.b * S.brightness.toNat / 255)) ∧
    ((∀ x, -1 ≤ sinf x ∧ sinf x ≤ 1) → 0 ≤ S.brightness ∧ S.brightness ≤ 255) ∧
    (∀ writes : List Int,
      writesValid writes (sendEntry n (advance (generateFrame n sinf s))) →
      ¬ (sendFrame n writes (advance (generateFrame n sinf s))).bytesToGo > 0 →
      (sendFrame n writes (advance (generateFrame n sinf s))).wire =
        (generateFrame n sinf s).buffer) := by
  subst hS
  subst hh
  obtain ⟨hc, hbr, b1, b2, b3⟩ := iter_pixel_state n sinf s hlen i hi
  obtain ⟨hr, hg, hb⟩ := rawColour_le (s.hue1 + 40 * i) s
  have hcr : ((pixelBody sinf)^[i + 1] (pixelEntry s)).r = (rawColour (s.hue1 + 40 * i) s).1 :=
    congrArg Prod.fst hc
  have hcg : ((pixelBody sinf)^[i + 1] (pixelEntry s)).g =
      (rawColour (s.hue1 + 40 * i) s).2.1 := congrArg (fun p => p.2.1) hc
  have hcb : ((pixelBody sinf)^[i + 1] (pixelEntry s)).b =
      (rawColour (s.hue1 + 40 * i) s).2.2 := congrArg (fun p => p.2.2) hc
  refine ⟨?_, b1, b2, b3, ?_, ?_, ?_⟩
  · rw [hc, rawColour_eq]
  · intro h0 h1
    rw [b1, b2, b3, stored_byte_eq _ _ (hcr ▸ hr) h0 h1, stored_byte_eq _ _ (hcg ▸ hg) h0 h1,
      stored_byte_eq _ _ (hcb ▸ hb) h0 h1]
    exact ⟨rfl, rfl, rfl⟩
  · intro hsin
    rw [hbr]
    exact brightnessOf_range _ (hsin _).1 (hsin _).2
  · intro writes hv hexit
    have hlen2 : (advance (generateFrame n sinf s)).buffer.length = sizeofBuffer n := by
      rw [advance_buffer, generateFrame_length, hlen]
    rw [sendFrame_wire n writes (advance (generateFrame n sinf s)) hlen2 hv hexit,
      advance_buffer]

/-- Witness of `payload_bytes`: the second pixel of a two-pixel strand right
after start-up, for the sine stand-in that is zero everywhere.  Its hue is
40 and its multiplier 31, so its colour is (255,40,0) and its bytes, at
offsets 9, 10, 11, are 31, 4, 0. -/
theorem payload_bytes_witness :
    (startup 2 0 blank).buffer.length = sizeofBuffer 2 ∧ 1 < 2 ∧
    40 = (startup 2 0 blank).hue1 + 40 * 1 ∧
    ((pixelBody (fun _ => 0))^[1 + 1] (pixelEntry (startup 2 0 blank))).brightness = 31 ∧
    (generateFrame 2 (fun _ => 0) (startup 2 0 blank)).buffer[6 + 3 * 1]? = some 31 ∧
    (generateFrame 2 (fun _ => 0) (startup 2 0 blank)).buffer[6 + 3 * 1 + 1]? = some 4 ∧
    (generateFrame 2 (fun _ => 0) (startup 2 0 blank)).buffer[6 + 3 * 1 + 2]? = some 0 := by
  have hlen := startup_buffer_length 2 0 blank
  have hbr : ((pixelBody (fun _ => 0))^[1 + 1] (pixelEntry (startup 2 0 blank))).brightness =
      31 := by
    rw [(iter_pixel_state 2 (fun _ => 0) (startup 2 0 blank) hlen 1 (by decide)).2.1]
    exact brightnessOf_zero
  obtain ⟨hc, -, -, -, hex, -, -⟩ :=
    payload_bytes 2 (fun _ => 0) (startup 2 0 blank) 1 40
      ((pixelBody (fun _ => 0))^[1 + 1] (pixelEntry (startup 2 0 blank))) hlen (by decide)
      rfl rfl
  have hcol : (((pixelBody (fun _ => 0))^[1 + 1] (pixelEntry (startup 2 0 blank))).r,
      ((pixelBody (fun _ => 0))^[1 + 1] (pixelEntry (startup 2 0 blank))).g,
      ((pixelBody (fun _ => 0))^[1 + 1] (pixelEntry (startup 2 0 blank))).b) = (255, 40, 0) := by
    rw [hc]; norm_num
  have hcr := congrArg Prod.fst hcol
  have hcg := congrArg (fun p => p.2.1) hcol
  have hcb := congrArg (fun p => p.2.2) hcol
  dsimp only at hcr hcg hcb
  obtain ⟨e1, e2, e3⟩ := hex (by rw [hbr]; decide) (by rw [hbr]; decide)
  rw [hcr, hbr] at e1
  rw [hcg, hbr] at e2
  rw [hcb, hbr] at e3
  exact ⟨hlen, by decide, rfl, hbr, e1, e2, e3⟩

/-- C7: rendering a frame from any state whose buffer has `6 + 3 n` bytes
starts at index 6, stores to the indices 6, 7, ..., 6+3n-1 in that order
(each exactly once, none at or beyond 6+3n), leaves the loop with
`i = 6 + 3 n` and the loop test false, and keeps the buffer at `6 + 3 n`
bytes; a completed write loop then delivers exactly `6 + 3 n` bytes. -/
theorem frame_is_exactly_6_plus_3n (n : Nat) (sinf : ℚ → ℚ) (s : State)
    (hlen : s.buffer.length = sizeofBuffer n) :
    (pixelEntry s).i = 6 ∧
    (generateFrame n sinf s).written = (List.range' 6 (3 * n)).map Int.ofNat ∧
    (generateFrame n sinf s).written.Nodup ∧
    (∀ j ∈ (generateFrame n sinf s).written, 6 ≤ j ∧ j < 6 + 3 * (n : Int)) ∧
    (generateFrame n sinf s).i = 6 + 3 * (n : Int) ∧
    ¬ (generateFrame n sinf s).i < (sizeofBuffer n : Int) ∧
    (generateFrame n sinf s).buffer.length = 6 + 3 * n ∧
    (∀ writes : List Int,
      writesValid writes (sendEntry n (advance (generateFrame n sinf s))) →
      ¬ (sendFrame n writes (advance (generateFrame n sinf s))).bytesToGo > 0 →
      (sendFrame n writes (advance (generateFrame n sinf s))).wire.length = 6 + 3 * n) := by
  have hw : (generateFrame n sinf s).written = (List.range' 6 (3 * n)).map Int.ofNat := by
    rw [generateFrame_eq_iter, iter_written]
  have hi : (generateFrame n sinf s).i = 6 + 3 * (n : Int) := by
    rw [generateFrame_eq_iter, iter_i]
  have hl : (generateFrame n sinf s).buffer.length = 6 + 3 * n := by
    rw [generateFrame_length, hlen]; unfold sizeofBuffer; ring
  refine ⟨rfl, hw, ?_, ?_, hi, ?_, hl, ?_⟩
  · rw [hw]
    exact (List.nodup_range' 6 (3 * n)).map (fun a b h => Int.ofNat.inj h)
  · intro j hj
    rw [hw, List.mem_map] at hj
    obtain ⟨a, ha, rfl⟩ := hj
    rw [List.mem_range'_1] at ha
    rw [Int.ofNat_eq_coe]
    omega
  · rw [hi]; unfold sizeofBuffer; push_cast; omega
  · intro writes hv hexit
    have hlen2 : (advance (generateFrame n sinf s)).buffer.length = sizeofBuffer n := by
      rw [advance_buffer, generateFrame_length, hlen]
    rw [sendFrame_wire n writes (advance (generateFrame n sinf s)) hlen2 hv hexit,
      advance_buffer, hl]

/-- Witness of `frame_is_exactly_6_plus_3n` for the built-in 25 pixels right
after start-up: the frame has 81 bytes. -/
theorem frame_is_exactly_6_plus_3n_witness :
    (startup 25 0 blank).buffer.length = sizeofBuffer 25 ∧
    (generateFrame 25 (fun _ => 0) (startup 25 0 blank)).written =
      (List.range' 6 (3 * 25)).map Int.ofNat ∧
    (generateFrame 25 (fun _ => 0) (startup 25 0 blank)).buffer.length = 6 + 3 * 25 :=
  ⟨startup_buffer_length 25 0 blank,
    (frame_is_exactly_6_plus_3n 25 (fun _ => 0) (startup 25 0 blank)
      (startup_buffer_length 25 0 blank)).2.1,
    (frame_is_exactly_6_plus_3n 25 (fun _ => 0) (startup 25 0 blank)
      (startup_buffer_length 25 0 blank)).2.2.2.2.2.2.1⟩

/-- C8: run the write loop on a buffer of `6 + 3 n` bytes against any
sequence of `write` results in which each result is at most the count
requested.  After any number of calls the bytes received are an initial
segment of the buffer (its first `bytesSent` bytes); when the loop has
exited they are the whole buffer, `6 + 3 n` bytes.  Against a channel taking
one byte per call the loop is still running after fewer than `6 + 3 n`
calls and has exited, after exactly `6 + 3 n` calls, from then on. -/
theorem write_loop_delivers (n : Nat) (writes : List Int) (s : State)
    (hlen : s.buffer.length = sizeofBuffer n)
    (hv : writesValid writes (sendEntry n s)) :
    (∀ j : Nat, (sendFrame n (writes.take j) s).wire <+: s.buffer) ∧
    (sendFrame n writes s).wire = s.buffer.take (sendFrame n writes s).bytesSent.toNat ∧
    (¬ (sendFrame n writes s).bytesToGo > 0 →
      (sendFrame n writes s).wire = s.buffer ∧
      (sendFrame n writes s).wire.length = 6 + 3 * n) ∧
    (∀ m : Nat, (sendFrame n (List.replicate m 1) s).bytesToGo > 0 ↔ m < 6 + 3 * n) ∧
    (∀ m : Nat, 6 + 3 * n ≤ m →
      (sendFrame n (List.replicate m 1) s).calls = 6 + 3 * n ∧
      (sendFrame n (List.replicate m 1) s).wire = s.buffer) := by
  have hinv : ∀ ws : List Int, writesValid ws (sendEntry n s) →
      WriteInv (sendFrame n ws s) := fun ws h =>
    writeLoop_inv ws _ (sendEntry_inv n s hlen) h
  have hbuf : ∀ ws : List Int, (sendFrame n ws s).buffer = s.buffer := fun ws => by
    unfold sendFrame; rw [writeLoop_buffer]; rfl
  have hones : ∀ m : Nat,
      (sendFrame n (List.replicate m 1) s).bytesToGo =
        (sizeofBuffer n : Int) - min (m : Int) (sizeofBuffer n : Int) ∧
      ((sendFrame n (List.replicate m 1) s).calls : Int) =
        min (m : Int) (sizeofBuffer n : Int) := by
    intro m
    have hg : (0 : Int) ≤ (sendEntry n s).bytesToGo := by
      show (0 : Int) ≤ (sizeofBuffer n : Int)
      omega
    obtain ⟨h1, h2⟩ := writeLoop_ones m (sendEntry n s) hg
    refine ⟨h1, ?_⟩
    unfold sendFrame
    rw [h2]
    show ((0 : Nat) : Int) + min (m : Int) (sizeofBuffer n : Int) = _
    simp
  refine ⟨?_, ?_, ?_, ?_, ?_⟩
  · intro j
    have h := (hinv _ (writesValid_take writes _ j hv)).2.2.2
    rw [hbuf] at h
    rw [h]
    exact List.take_prefix _ _
  · have h := (hinv _ hv).2.2.2
    rw [hbuf] at h
    exact h
  · intro hexit
    have h := sendFrame_wire n writes s hlen hv hexit
    refine ⟨h, ?_⟩
    rw [h, hlen]; unfold sizeofBuffer; ring
  · intro m
    rw [(hones m).1]
    unfold sizeofBuffer
    push_cast
    omega
  · intro m hm
    have hexit : ¬ (sendFrame n (List.replicate m 1) s).bytesToGo > 0 := by
      rw [(hones m).1]; unfold sizeofBuffer; push_cast; omega
    refine ⟨?_, sendFrame_wire n _ s hlen (writesValid_ones m _) hexit⟩
    have h := (hones m).2
    unfold sizeofBuffer at h
    push_cast at h
    omega

/-- Witness of `write_loop_delivers`: the 9-byte frame of a one-pixel strand
sent in pieces of 4, 0 (retry), -1 (error, retry) and 5 bytes arrives whole. -/
theorem write_loop_delivers_witness :
    (startup 1 0 blank).buffer.length = sizeofBuffer 1 ∧
    writesValid [4, 0, -1, 5] (sendEntry 1 (startup 1 0 blank)) ∧
    ¬ (sendFrame 1 [4, 0, -1, 5] (startup 1 0 blank)).bytesToGo > 0 ∧
    (sendFrame 1 [4, 0, -1, 5] (startup 1 0 blank)).wire = (startup 1 0 blank).buffer ∧
    (sendFrame 1 [4, 0, -1, 5] (startup 1 0 blank)).wire.length = 6 + 3 * 1 :=
  ⟨startup_buffer_length 1 0 blank,
    by simp [writesValid, writeBody, sendEntry, sizeofBuffer],
    by decide,
    (write_loop_delivers 1 [4, 0, -1, 5] (startup 1 0 blank) (startup_buffer_length 1 0 blank)
      (by simp [writesValid, writeBody, sendEntry, sizeofBuffer])).2.2.1 (by decide)⟩

/-- C9: if the program completes the iterations of `for(;;)` fed by `inputs`
from start-up, then afterwards `hue1 = 5 k mod 1536` for `k` the number of
frames, which lies in [0,1535].  Every completed frame replaces `hue1` by
`(hue1 + 5) mod 1536` and `sine1` by `sine1 - 0.03`, and the pixel loop,
which works on the copies `hue2` and `sine2`, changes neither. -/
theorem hue_base_advance (n : Nat) (sinf : ℚ → ℚ) (now : Int) (s0 : State)
    (inputs : List FrameInput)
    (hrun : (mainLoop n sinf inputs (startup n now s0)).isSome = true) :
    (∃ s2, mainLoop n sinf inputs (startup n now s0) = some s2 ∧
      s2.hue1 = 5 * inputs.length % 1536 ∧ s2.hue1 < 1536) ∧
    (∀ (inp : FrameInput) (s s2 : State), frameIter n sinf inp s = some s2 →
      s2.hue1 = (s.hue1 + 5) % 1536 ∧ s2.sine1 = s.sine1 - 3 / 100) ∧
    (∀ (fuel : Nat) (s : State),
      (pixelLoop n sinf fuel s).hue1 = s.hue1 ∧ (pixelLoop n sinf fuel s).sine1 = s.sine1) ∧
    (∀ s : State,
      (generateFrame n sinf s).hue1 = s.hue1 ∧ (generateFrame n sinf s).sine1 = s.sine1) := by
  refine ⟨?_, ?_, ?_, ?_⟩
  · obtain ⟨s2, hs2⟩ := Option.isSome_iff_exists.mp hrun
    obtain ⟨h1, h2, -, -, -⟩ := mainLoop_some n sinf inputs _ s2 hs2
    have h0 : (startup n now s0).hue1 = 0 := rfl
    rw [h0, Nat.zero_add] at h1
    refine ⟨s2, hs2, ?_, ?_⟩
    · by_cases hne : inputs = []
      · subst hne
        unfold mainLoop at hs2
        injection hs2 with hs2
        rw [← hs2, h0]
        rfl
      · rw [← h1, Nat.mod_eq_of_lt (h2 hne)]
    · by_cases hne : inputs = []
      · subst hne
        unfold mainLoop at hs2
        injection hs2 with hs2
        rw [← hs2, h0]
        norm_num
      · exact h2 hne
  · intro inp s s2 h
    obtain ⟨f1, f2, -, -⟩ := frameIter_some n sinf inp s s2 h
    exact ⟨f1, f2⟩
  · intro fuel s
    exact pixelLoop_frame n sinf fuel s
  · intro s
    unfold generateFrame
    obtain ⟨h1, h2⟩ := pixelLoop_frame n sinf (sizeofBuffer n) (pixelEntry s)
    rw [h1, h2]
    exact ⟨rfl, rfl⟩

/-- Witness of `hue_base_advance`: two frames of a one-pixel strand, the
first accepted in one write, the second in two writes with a retry between. -/
theorem hue_base_advance_witness :
    (mainLoop 1 (fun _ => 0) [⟨[9], 0⟩, ⟨[4, 0, 5], 1⟩] (startup 1 0 blank)).isSome = true ∧
    (∃ s2, mainLoop 1 (fun _ => 0) [⟨[9], 0⟩, ⟨[4, 0, 5], 1⟩] (startup 1 0 blank) = some s2 ∧
      s2.hue1 = 5 * 2 % 1536 ∧ s2.hue1 < 1536) :=
  ⟨by decide,
    (hue_base_advance 1 (fun _ => 0) 0 blank [⟨[9], 0⟩, ⟨[4, 0, 5], 1⟩] (by decide)).1⟩

/-- C10: if the program completes the iterations of `for(;;)` fed by
`inputs` from start-up, the six header bytes in the buffer are those built
at start-up and the buffer still has `6 + 3 n` bytes.  Rendering a frame
changes no index below 6, and the state advance, the write loop and the
statistics code do not change the buffer at all. -/
theorem header_never_modified (n : Nat) (sinf : ℚ → ℚ) (now : Int) (s0 : State)
    (inputs : List FrameInput)
    (hrun : (mainLoop n sinf inputs (startup n now s0)).isSome = true) :
    (∃ s2, mainLoop n sinf inputs (startup n now s0) = some s2 ∧
      s2.buffer.take 6 = (startup n now s0).buffer.take 6 ∧
      s2.buffer.length = sizeofBuffer n) ∧
    (∀ s : State, (generateFrame n sinf s).buffer.take 6 = s.buffer.take 6) ∧
    (∀ s : State, (advance s).buffer = s.buffer) ∧
    (∀ (writes : List Int) (s : State), (sendFrame n writes s).buffer = s.buffer) ∧
    (∀ (t : Int) (s : State), (updateStats n t s).buffer = s.buffer) := by
  refine ⟨?_, ?_, ?_, ?_, ?_⟩
  · obtain ⟨s2, hs2⟩ := Option.isSome_iff_exists.mp hrun
    obtain ⟨-, -, h3, h4, -⟩ := mainLoop_some n sinf inputs _ s2 hs2
    exact ⟨s2, hs2, take6_eq _ _ h4, by rw [h3, startup_buffer_length]⟩
  · intro s
    exact take6_eq _ _ (fun j hj => generateFrame_low n sinf s j hj)
  · intro s
    exact advance_buffer s
  · intro writes s
    exact sendFrame_buffer n writes s
  · intro t s
    exact (updateStats_frame n t s).1

/-- Witness of `header_never_modified`: after two frames of a one-pixel
strand the header is still 'A','d','a',0,0,0x55. -/
theorem header_never_modified_witness :
    (mainLoop 1 (fun _ => 0) [⟨[9], 0⟩, ⟨[4, 0, 5], 1⟩] (startup 1 0 blank)).isSome = true ∧
    (startup 1 0 blank).buffer.take 6 = [0x41, 0x64, 0x61, 0, 0, 0x55] ∧
    (∃ s2, mainLoop 1 (fun _ => 0) [⟨[9], 0⟩, ⟨[4, 0, 5], 1⟩] (startup 1 0 blank) = some s2 ∧
      s2.buffer.take 6 = (startup 1 0 blank).buffer.take 6 ∧
      s2.buffer.length = sizeofBuffer 1) :=
  ⟨by decide, by decide,
    (header_never_modified 1 (fun _ => 0) 0 blank [⟨[9], 0⟩, ⟨[4, 0, 5], 1⟩] (by decide)).1⟩

/-- C11: as a function of the sine value `sv` in [-1,1], the brightness
multiplier (the integer conversion of `((0.5 + 0.5 sv)^3) * 255` in exact
arithmetic) lies in [0,255] and is non-decreasing; it is 255 at `sv = 1` and
0 at `sv = -1`. -/
theorem brightness_bounded_monotone (sv tv : ℚ) (h1 : -1 ≤ sv) (h2 : sv ≤ tv) (h3 : tv ≤ 1) :
    (0 ≤ brightnessOf sv ∧ brightnessOf sv ≤ 255) ∧
    brightnessOf sv ≤ brightnessOf tv ∧
    brightnessOf 1 = 255 ∧ brightnessOf (-1) = 0 := by
  have hx0 : (0 : ℚ) ≤ 1 / 2 + sv * (1 / 2) := by linarith
  have hxy : 1 / 2 + sv * (1 / 2) ≤ 1 / 2 + tv * (1 / 2) := by linarith
  have hcube : (1 / 2 + sv * (1 / 2)) ^ 3 ≤ (1 / 2 + tv * (1 / 2)) ^ 3 :=
    pow_le_pow_left₀ hx0 hxy 3
  have hq0 : (0 : ℚ) ≤ (1 / 2 + sv * (1 / 2)) ^ 3 * 255 := by positivity
  have hq1 : (0 : ℚ) ≤ (1 / 2 + tv * (1 / 2)) ^ 3 * 255 := by
    have : (0 : ℚ) ≤ 1 / 2 + tv * (1 / 2) := by linarith
    positivity
  refine ⟨brightnessOf_range sv h1 (h2.trans h3), ?_, ?_, ?_⟩
  · unfold brightnessOf
    rw [truncToInt_of_nonneg _ hq0, truncToInt_of_nonneg _ hq1]
    exact Int.floor_le_floor (by linarith)
  · unfold brightnessOf
    rw [truncToInt_of_nonneg _ (by norm_num)]
    norm_num
  · unfold brightnessOf
    rw [truncToInt_of_nonneg _ (by norm_num)]
    norm_num

/-- Witness of `brightness_bounded_monotone` at the sine values 0 and 1/2. -/
theorem brightness_bounded_monotone_witness :
    (-1 : ℚ) ≤ 0 ∧ (0 : ℚ) ≤ 1 / 2 ∧ (1 / 2 : ℚ) ≤ 1 ∧
    ((0 ≤ brightnessOf 0 ∧ brightnessOf 0 ≤ 255) ∧
    brightnessOf 0 ≤ brightnessOf (1 / 2) ∧
    brightnessOf 1 = 255 ∧ brightnessOf (-1) = 0) :=
  ⟨by norm_num, by norm_num, by norm_num,
    brightness_bounded_monotone 0 (1 / 2) (by norm_num) (by norm_num) (by norm_num)⟩

/-- C12, as stated, fails in each of its four assertions, for a 25-pixel
strand whose 81-byte frames are each accepted whole, all but the last
within the start second.
* Bytes/sec: after 207977 frames, at second 2079, the report prints
  frames/sec 100 and bytes/sec 8102, whereas 16846137 / 2079 is exactly 8103
  (16846137 is not a `float`).
* Frames/sec: after 16777299 frames, at second 167773, the report prints
  frames/sec 100, whereas 16777299 / 167773 truncates to 99.
* Byte counter: after 26512144 frames the byte counter is -2147483632, not
  2147483664, which no 32-bit `int` holds.
* Frame counter: after 2147483648 frames the frame counter is -2147483648. -/
theorem report_not_exact :
    (∃ s2, mainLoop 25 (fun _ => 0)
        (List.replicate 207976 ⟨[81], 0⟩ ++ [⟨[81], 2079⟩]) (startup 25 0 blank) = some s2 ∧
      s2.frame = 207977 ∧ s2.totalBytesSent = 207977 * (6 + 3 * 25) ∧
      s2.reports = [⟨207977, 207977 * (6 + 3 * 25), 2079⟩] ∧
      printedLine ⟨207977, 207977 * (6 + 3 * 25), 2079⟩ = (some 100, some 8102) ∧
      (207977 : Int) / 2079 = 100 ∧ (207977 * (6 + 3 * 25) : Int) / 2079 = 8103) ∧
    (∃ s2, mainLoop 25 (fun _ => 0)
        (List.replicate 16777298 ⟨[81], 0⟩ ++ [⟨[81], 167773⟩]) (startup 25 0 blank) = some s2 ∧
      s2.frame = 16777299 ∧
      s2.reports = [⟨16777299, 16777299 * (6 + 3 * 25), 167773⟩] ∧
      (printedLine ⟨16777299, 16777299 * (6 + 3 * 25), 167773⟩).1 = some 100 ∧
      (16777299 : Int) / 167773 = 99) ∧
    (∃ s2, mainLoop 25 (fun _ => 0)
        (List.replicate 26512143 ⟨[81], 0⟩ ++ [⟨[81], 265121⟩]) (startup 25 0 blank) = some s2 ∧
      s2.frame = 26512144 ∧ s2.totalBytesSent = -2147483632 ∧
      (26512144 * (6 + 3 * 25) : Int) = 2147483664) ∧
    (∃ s2, mainLoop 25 (fun _ => 0)
        (List.replicate 2147483647 ⟨[81], 0⟩ ++ [⟨[81], 21474836⟩]) (startup 25 0 blank) =
          some s2 ∧
      s2.frame = -2147483648) := by
  have hsz : ((sizeofBuffer 25 : Nat) : Int) = 81 := rfl
  refine ⟨?_, ?_, ?_, ?_⟩
  · obtain ⟨s2, hs2, c1, c2, c3⟩ :=
      startup_quiet_then_report 25 (fun _ => 0) 0 blank 207976 2079 (by norm_num)
    have hw1 : wrapInt (((207976 : Nat) : Int) + 1) = 207977 := by
      rw [wrapInt_small _ (by norm_num) (by norm_num)]; norm_num
    have hw2 : wrapInt ((((207976 : Nat) : Int) + 1) * (sizeofBuffer 25 : Int)) = 16846137 := by
      rw [hsz, wrapInt_small _ (by norm_num) (by norm_num)]; norm_num
    rw [hw1] at c1
    rw [hw2] at c2
    rw [hw1, hw2] at c3
    refine ⟨s2, hs2, c1, ?_, ?_, ?_, by norm_num, by norm_num⟩
    · rw [c2]; norm_num
    · rw [c3]; norm_num
    · have h1 := printedRate_exact 207977 2079 (by norm_num) (by norm_num)
      have h2 := printedRate_16846137
      have a1 : ((207977 : Nat) : Int) = 207977 := rfl
      have a2 : ((2079 : Nat) : Int) = 2079 := rfl
      have a3 : (((207977 / 2079 : Nat) : Nat) : Int) = 100 := rfl
      have a4 : (207977 * (6 + 3 * 25) : Int) = 16846137 := by norm_num
      rw [a1, a2, a3] at h1
      show (printedRate 207977 2079, printedRate (207977 * (6 + 3 * 25)) 2079) = _
      rw [a4, h1, h2]
  · obtain ⟨s2, hs2, c1, -, c3⟩ :=
      startup_quiet_then_report 25 (fun _ => 0) 0 blank 16777298 167773 (by norm_num)
    have hw1 : wrapInt (((16777298 : Nat) : Int) + 1) = 16777299 := by
      rw [wrapInt_small _ (by norm_num) (by norm_num)]; norm_num
    have hw2 : wrapInt ((((16777298 : Nat) : Int) + 1) * (sizeofBuffer 25 : Int)) =
        16777299 * (6 + 3 * 25) := by
      rw [hsz, wrapInt_small _ (by norm_num) (by norm_num)]; norm_num
    rw [hw1] at c1
    rw [hw1, hw2] at c3
    refine ⟨s2, hs2, c1, ?_, ?_, by norm_num⟩
    · rw [c3]; norm_num
    · show printedRate 16777299 167773 = some 100
      exact printedRate_16777299
  · obtain ⟨s2, hs2, c1, c2, -⟩ :=
      startup_quiet_then_report 25 (fun _ => 0) 0 blank 26512143 265121 (by norm_num)
    have hw1 : wrapInt (((26512143 : Nat) : Int) + 1) = 26512144 := by
      rw [wrapInt_small _ (by norm_num) (by norm_num)]; norm_num
    have hw2 : wrapInt ((((26512143 : Nat) : Int) + 1) * (sizeofBuffer 25 : Int)) =
        -2147483632 := by
      rw [hsz]; unfold wrapInt; norm_num
    rw [hw1] at c1
    rw [hw2] at c2
    exact ⟨s2, hs2, c1, c2, by norm_num⟩
  · obtain ⟨s2, hs2, c1, -, -⟩ :=
      startup_quiet_then_report 25 (fun _ => 0) 0 blank 2147483647 21474836 (by norm_num)
    have hw1 : wrapInt (((2147483647 : Nat) : Int) + 1) = -2147483648 := by
      unfold wrapInt; norm_num
    rw [hw1] at c1
    exact ⟨s2, hs2, c1⟩

/-- C12, amended.  After `k` completed frames the frame counter is `k` if
`k < 2 ^ 31` and the byte counter is `k (6 + 3 n)` if `k (6 + 3 n) < 2 ^ 31`.
If the `k`-th frame is read at a second that differs from the last-report
time, `e ≥ 1` seconds after start, a report is recorded with the two
counters and divisor `e`; it prints frames/sec `k / e` if `k < 2 ^ 24` and
bytes/sec `k (6 + 3 n) / e` if `k (6 + 3 n) < 2 ^ 24`, each truncated to an
integer.  For 30 frames, `e = 1` and any `n ≤ 65536` it prints 30 and
`30 (6 + 3 n)`. -/
theorem throughput_report (n : Nat) (sinf : ℚ → ℚ) (now : Int) (s0 : State)
    (inputs : List FrameInput) (last : FrameInput) (e : Nat)
    (hrun : (mainLoop n sinf (inputs ++ [last]) (startup n now s0)).isSome = true)
    (hnew : (mainLoop n sinf inputs (startup n now s0)).map State.prev ≠ some last.now)
    (he : last.now - now = (e : Int)) (he1 : 1 ≤ e) :
    (∃ s1 s2, mainLoop n sinf inputs (startup n now s0) = some s1 ∧
      mainLoop n sinf (inputs ++ [last]) (startup n now s0) = some s2 ∧
      (inputs.length + 1 < 2147483648 → s2.frame = ((inputs.length + 1 : Nat) : Int)) ∧
      ((inputs.length + 1) * (6 + 3 * n) < 2147483648 →
        s2.totalBytesSent = (((inputs.length + 1) * (6 + 3 * n) : Nat) : Int)) ∧
      s2.reports = s1.reports ++ [⟨s2.frame, s2.totalBytesSent, (e : Int)⟩] ∧
      (inputs.length + 1 < 16777216 →
        (printedLine ⟨s2.frame, s2.totalBytesSent, (e : Int)⟩).1 =
          some (((inputs.length + 1) / e : Nat) : Int)) ∧
      ((inputs.length + 1) * (6 + 3 * n) < 16777216 →
        (printedLine ⟨s2.frame, s2.totalBytesSent, (e : Int)⟩).2 =
          some (((inputs.length + 1) * (6 + 3 * n) / e : Nat) : Int))) ∧
    (∀ (inputs2 : List FrameInput) (s3 : State),
      mainLoop n sinf inputs2 (startup n now s0) = some s3 →
      (inputs2.length < 2147483648 → s3.frame = (inputs2.length : Int)) ∧
      (inputs2.length * (6 + 3 * n) < 2147483648 →
        s3.totalBytesSent = ((inputs2.length * (6 + 3 * n) : Nat) : Int))) ∧
    (n ≤ 65536 →
      printedLine ⟨30, ((30 * (6 + 3 * n) : Nat) : Int), 1⟩ =
        (some 30, some ((30 * (6 + 3 * n) : Nat) : Int))) := by
  refine ⟨?_, ?_, ?_⟩
  · obtain ⟨s2, hs2⟩ := Option.isSome_iff_exists.mp hrun
    have hs2' := hs2
    rw [mainLoop_append] at hs2'
    cases h1 : mainLoop n sinf inputs (startup n now s0) with
    | none => rw [h1] at hs2'; simp at hs2'
    | some s1 =>
      rw [h1, Option.some_bind, mainLoop_single] at hs2'
      obtain ⟨c1, c2⟩ := startup_counters n sinf now s0 (inputs ++ [last]) s2 hs2
      rw [List.length_append, List.length_singleton] at c1 c2
      obtain ⟨f1, f2, -, f4, -⟩ := frameIter_stats n sinf last s1 s2 hs2'
      have hne : last.now ≠ s1.prev := by
        intro hc
        apply hnew
        rw [h1, Option.map_some', hc]
      obtain ⟨-, e2⟩ := f4 hne
      obtain ⟨-, -, -, -, h5⟩ := mainLoop_some n sinf inputs _ s1 h1
      have hst : s1.start = now := h5
      refine ⟨s1, s2, rfl, hs2, c1, c2, ?_, ?_, ?_⟩
      · rw [e2, ← f1, ← f2, hst, he]
      · intro hk
        show printedRate s2.frame (e : Int) = _
        rw [c1 (by omega)]
        exact printedRate_exact _ e hk he1
      · intro hk
        show printedRate s2.totalBytesSent (e : Int) = _
        rw [c2 (by omega)]
        exact printedRate_exact _ e hk he1
  · intro inputs2 s3 h3
    exact startup_counters n sinf now s0 inputs2 s3 h3
  · intro hn
    unfold printedLine
    have h1 := printedRate_exact 30 1 (by norm_num) (by norm_num)
    have h2 := printedRate_exact (30 * (6 + 3 * n)) 1 (by omega) (by norm_num)
    rw [Nat.div_one] at h1 h2
    exact Prod.ext h1 h2

/-- Witness of `throughput_report`: two frames of a one-pixel strand, the
second read one second after start; the report holds the counters 2 and 18
and prints 2 and 18. -/
theorem throughput_report_witness :
    (mainLoop 1 (fun _ => 0) ([⟨[9], 0⟩] ++ [⟨[9], 1⟩]) (startup 1 0 blank)).isSome = true ∧
    (mainLoop 1 (fun _ => 0) [⟨[9], 0⟩] (startup 1 0 blank)).map State.prev ≠
      some (⟨[9], 1⟩ : FrameInput).now ∧
    (⟨[9], 1⟩ : FrameInput).now - 0 = ((1 : Nat) : Int) ∧ 1 ≤ 1 ∧
    (∃ s1 s2, mainLoop 1 (fun _ => 0) [⟨[9], 0⟩] (startup 1 0 blank) = some s1 ∧
      mainLoop 1 (fun _ => 0) ([⟨[9], 0⟩] ++ [⟨[9], 1⟩]) (startup 1 0 blank) = some s2 ∧
      s2.reports = s1.reports ++ [⟨2, 18, 1⟩] ∧
      printedLine ⟨2, 18, 1⟩ = (some 2, some 18)) := by
  refine ⟨by decide, by decide, by decide, by decide, ?_⟩
  obtain ⟨s1, s2, h1, h2, c1, c2, c3, c4, c5⟩ :=
    (throughput_report 1 (fun _ => 0) 0 blank [⟨[9], 0⟩] ⟨[9], 1⟩ 1
      (by decide) (by decide) (by decide) (by decide)).1
  have f : s2.frame = 2 := c1 (by decide)
  have b : s2.totalBytesSent = 18 := c2 (by decide)
  have p1 := c4 (by decide)
  have p2 := c5 (by decide)
  rw [f, b] at c3 p1 p2
  exact ⟨s1, s2, h1, h2, c3, Prod.ext p1 p2⟩

/-- C13: for every hue the raw wheel colour is fully saturated at full
value: its largest component is 255 and its smallest is 0. -/
theorem rawColour_full_saturation (hue : Nat) (s : State) :
    max (rawColour hue s).1 (max (rawColour hue s).2.1 (rawColour hue s).2.2) = 255 ∧
    min (rawColour hue s).1 (min (rawColour hue s).2.1 (rawColour hue s).2.2) = 0 := by
  have hlo : hue % 256 < 256 := Nat.mod_lt _ (by norm_num)
  rw [rawColour_eq]
  split_ifs <;> refine ⟨?_, ?_⟩ <;> dsimp only <;> omega

/-- C14: for every hue `h`, the sextant `(h >> 8) mod 6` and the fraction
`h & 255` are those of `h mod 1536`, so the switch gives the same colour for
`h` and `h mod 1536`; the sextant is always one of the six cases, so `r`,
`g`, `b` are always assigned (the result does not depend on what they held
before).  Hues of 1536 and more do reach the switch: the second pixel of a
frame rendered at hue base 1535 has hue 1575. -/
theorem hue_wraps_mod_1536 (h : Nat) (s s2 : State) :
    rawColour h s = rawColour (h % 1536) s ∧
    ((h % 1536) >>> 8) % 6 = (h >>> 8) % 6 ∧
    (h % 1536) &&& 255 = h &&& 255 ∧
    (h >>> 8) % 6 < 6 ∧
    rawColour h s = rawColour h s2 ∧
    (∀ sinf : ℚ → ℚ,
      ((pixelBody sinf)^[1] (pixelEntry { s with hue1 := 1535 })).hue2 = 1575) := by
  have e255 : ∀ x : Nat, x &&& 255 = x % 256 := fun x => by
    rw [show (255 : Nat) = 2 ^ 8 - 1 by norm_num, Nat.and_pow_two_sub_one_eq_mod]
  have e8 : ∀ x : Nat, x >>> 8 = x / 256 := fun x => by rw [Nat.shiftRight_eq_div_pow]
  refine ⟨?_, ?_, ?_, Nat.mod_lt _ (by norm_num), rawColour_indep h s s2, ?_⟩
  · rw [rawColour_eq, rawColour_eq]
    have a1 : h % 1536 / 256 % 6 = h / 256 % 6 := by omega
    have a2 : h % 1536 % 256 = h % 256 := by omega
    rw [a1, a2]
  · rw [e8, e8]; omega
  · rw [e255, e255]; omega
  · intro sinf
    rw [iter_hue2]

/-- C15: in the write loop a `write` result that is zero or negative leaves
the send offset, the remaining count, the bytes received and the bytes
offered to the next call unchanged.  After any number of calls, whatever the
channel returned, `bytesSent + bytesToGo = 6 + 3 n` and `0 ≤ bytesSent`.
Against a channel that never returns more than was requested, the loop test
`bytesToGo > 0` fails only with `bytesToGo = 0`. -/
theorem write_loop_retry_invariant (n : Nat) (writes : List Int) (s : State) (res : Int) :
    (res ≤ 0 →
      (writeBody res s).bytesSent = s.bytesSent ∧
      (writeBody res s).bytesToGo = s.bytesToGo ∧
      (writeBody res s).wire = s.wire ∧
      offered (writeBody res s) = offered s) ∧
    (∀ j : Nat,
      (sendFrame n (writes.take j) s).bytesSent + (sendFrame n (writes.take j) s).bytesToGo =
        6 + 3 * (n : Int) ∧
      0 ≤ (sendFrame n (writes.take j) s).bytesSent) ∧
    (s.buffer.length = sizeofBuffer n → writesValid writes (sendEntry n s) →
      ¬ (sendFrame n writes s).bytesToGo > 0 → (sendFrame n writes s).bytesToGo = 0) := by
  refine ⟨?_, ?_, ?_⟩
  · intro hres
    rw [writeBody_nonpos res s (by omega)]
    exact ⟨rfl, rfl, rfl, rfl⟩
  · intro j
    obtain ⟨h1, h2⟩ := writeLoop_sum (writes.take j) (sendEntry n s)
    unfold sendFrame
    refine ⟨?_, h2 (le_refl (0 : Int))⟩
    rw [h1]
    show (0 : Int) + (sizeofBuffer n : Int) = _
    unfold sizeofBuffer
    push_cast
    ring
  · intro hlen hv hexit
    exact (writeInv_exit _ (writeLoop_inv writes _ (sendEntry_inv n s hlen) hv) hexit).1

/-- Witness of `write_loop_retry_invariant`: a one-pixel strand whose frame
is accepted as 4 bytes, a zero result, an error result and 5 bytes. -/
theorem write_loop_retry_invariant_witness :
    (0 : Int) ≤ 0 ∧
    (startup 1 0 blank).buffer.length = sizeofBuffer 1 ∧
    writesValid [4, 0, -1, 5] (sendEntry 1 (startup 1 0 blank)) ∧
    ¬ (sendFrame 1 [4, 0, -1, 5] (startup 1 0 blank)).bytesToGo > 0 ∧
    (sendFrame 1 [4, 0, -1, 5] (startup 1 0 blank)).bytesToGo = 0 ∧
    offered (writeBody 0 (startup 1 0 blank)) = offered (startup 1 0 blank) :=
  ⟨le_rfl, startup_buffer_length 1 0 blank,
    by simp [writesValid, writeBody, sendEntry, sizeofBuffer],
    by decide,
    (write_loop_retry_invariant 1 [4, 0, -1, 5] (startup 1 0 blank) 0).2.2
      (startup_buffer_length 1 0 blank)
      (by simp [writesValid, writeBody, sendEntry, sizeofBuffer]) (by decide),
    ((write_loop_retry_invariant 1 [4, 0, -1, 5] (startup 1 0 blank) 0).1 le_rfl).2.2.2⟩

/-- C16: for `n = 0` the buffer is the six header bytes.  The pixel loop
runs zero iterations (the rendered state is the loop's entry state, nothing
is stored, the buffer is unchanged), and a completed write loop delivers
exactly the six header bytes and no payload. -/
theorem empty_strand_frame (sinf : ℚ → ℚ) (now : Int) (s0 s : State) :
    sizeofBuffer 0 = 6 ∧
    (startup 0 now s0).buffer = [0x41, 0x64, 0x61, 0xFF, 0xFF, 0x55] ∧
    generateFrame 0 sinf s = pixelEntry s ∧
    (generateFrame 0 sinf s).written = [] ∧
    (generateFrame 0 sinf s).buffer = s.buffer ∧
    (∀ writes : List Int,
      writesValid writes (sendEntry 0 (advance (generateFrame 0 sinf (startup 0 now s0)))) →
      ¬ (sendFrame 0 writes (advance (generateFrame 0 sinf (startup 0 now s0)))).bytesToGo > 0 →
      (sendFrame 0 writes (advance (generateFrame 0 sinf (startup 0 now s0)))).wire =
        [0x41, 0x64, 0x61, 0xFF, 0xFF, 0x55]) := by
  have hg : generateFrame 0 sinf s = pixelEntry s := by
    rw [generateFrame_eq_iter]; rfl
  have hb : (startup 0 now s0).buffer = [0x41, 0x64, 0x61, 0xFF, 0xFF, 0x55] := by
    show initHeader 0 (List.replicate (sizeofBuffer 0) 0) = _
    exact initHeader_zero
  refine ⟨rfl, hb, hg, by rw [hg]; rfl, by rw [hg]; rfl, ?_⟩
  intro writes hv hexit
  have hlen2 : (advance (generateFrame 0 sinf (startup 0 now s0))).buffer.length =
      sizeofBuffer 0 := by
    rw [advance_buffer, generateFrame_length, startup_buffer_length]
  rw [sendFrame_wire 0 writes _ hlen2 hv hexit, advance_buffer, generateFrame_eq_iter]
  exact hb

/-- Witness of `empty_strand_frame`: the six bytes sent in two writes. -/
theorem empty_strand_frame_witness :
    writesValid [2, 4]
      (sendEntry 0 (advance (generateFrame 0 (fun _ => 0) (startup 0 0 blank)))) ∧
    ¬ (sendFrame 0 [2, 4]
      (advance (generateFrame 0 (fun _ => 0) (startup 0 0 blank)))).bytesToGo > 0 ∧
    (sendFrame 0 [2, 4] (advance (generateFrame 0 (fun _ => 0) (startup 0 0 blank)))).wire =
      [0x41, 0x64, 0x61, 0xFF, 0xFF, 0x55] :=
  ⟨by simp [writesValid, writeBody, sendEntry, sizeofBuffer], by decide,
    (empty_strand_frame (fun _ => 0) 0 blank blank).2.2.2.2.2 [2, 4]
      (by simp [writesValid, writeBody, sendEntry, sizeofBuffer]) (by decide)⟩

/-- C17: if the clock never goes backwards and the program completes the
iterations of `for(;;)` fed by `inputs` from start-up, then the last-report
time is at least the start time and every report printed had a divisor
`t - start` of at least 1, hence not zero. -/
theorem report_divisor_nonzero (n : Nat) (sinf : ℚ → ℚ) (now : Int) (s0 : State)
    (inputs : List FrameInput)
    (hclock : clockMonotone now inputs)
    (hrun : (mainLoop n sinf inputs (startup n now s0)).isSome = true) :
    ∃ s2, mainLoop n sinf inputs (startup n now s0) = some s2 ∧
      s2.start = now ∧ s2.start ≤ s2.prev ∧
      ∀ r ∈ s2.reports, 1 ≤ r.elapsed ∧ r.elapsed ≠ 0 := by
  obtain ⟨s2, hs2⟩ := Option.isSome_iff_exists.mp hrun
  obtain ⟨h1, h2⟩ := mainLoop_reports n sinf inputs (startup n now s0) s2 now hs2
    (le_refl now) (le_refl now) hclock (fun r hr => absurd hr (List.not_mem_nil r))
  obtain ⟨-, -, -, -, h5⟩ := mainLoop_some n sinf inputs _ s2 hs2
  refine ⟨s2, hs2, h5, h2, ?_⟩
  intro r hr
  have := h1 r hr
  exact ⟨this, by omega⟩

/-- Witness of `report_divisor_nonzero`: three frames of a one-pixel strand
read at seconds 100, 101 and 101 after a start at second 100; one report is
printed, with divisor 1. -/
theorem report_divisor_nonzero_witness :
    clockMonotone 100 [⟨[9], 100⟩, ⟨[9], 101⟩, ⟨[9], 101⟩] ∧
    (mainLoop 1 (fun _ => 0) [⟨[9], 100⟩, ⟨[9], 101⟩, ⟨[9], 101⟩]
      (startup 1 100 blank)).isSome = true ∧
    (∃ s2, mainLoop 1 (fun _ => 0) [⟨[9], 100⟩, ⟨[9], 101⟩, ⟨[9], 101⟩]
        (startup 1 100 blank) = some s2 ∧
      s2.start = 100 ∧ s2.start ≤ s2.prev ∧
      ∀ r ∈ s2.reports, 1 ≤ r.elapsed ∧ r.elapsed ≠ 0) :=
  ⟨by simp [clockMonotone], by decide,
    report_divisor_nonzero 1 (fun _ => 0) 100 blank [⟨[9], 100⟩, ⟨[9], 101⟩, ⟨[9], 101⟩]
      (by simp [clockMonotone]) (by decide)⟩

/-- C18: the hue wheel is continuous: for every hue `h` in [0,1535] each raw
component at `h` and at `(h + 1) mod 1536` differ by at most 1, across
sextant boundaries and across the wrap from 1535 to 0 as well. -/
theorem hue_wheel_continuous (h : Nat) (s : State) (hh : h ≤ 1535) :
    ((rawColour h s).1 ≤ (rawColour ((h + 1) % 1536) s).1 + 1 ∧
      (rawColour ((h + 1) % 1536) s).1 ≤ (rawColour h s).1 + 1) ∧
    ((rawColour h s).2.1 ≤ (rawColour ((h + 1) % 1536) s).2.1 + 1 ∧
      (rawColour ((h + 1) % 1536) s).2.1 ≤ (rawColour h s).2.1 + 1) ∧
    ((rawColour h s).2.2 ≤ (rawColour ((h + 1) % 1536) s).2.2 + 1 ∧
      (rawColour ((h + 1) % 1536) s).2.2 ≤ (rawColour h s).2.2 + 1) := by
  rw [rawColour_eq, rawColour_eq]
  split_ifs <;> dsimp only <;> omega

/-- Witness of `hue_wheel_continuous` across the wrap from 1535 to 0. -/
theorem hue_wheel_continuous_witness :
    1535 ≤ 1535 ∧
    (((rawColour 1535 blank).1 ≤ (rawColour ((1535 + 1) % 1536) blank).1 + 1 ∧
      (rawColour ((1535 + 1) % 1536) blank).1 ≤ (rawColour 1535 blank).1 + 1) ∧
    ((rawColour 1535 blank).2.1 ≤ (rawColour ((1535 + 1) % 1536) blank).2.1 + 1 ∧
      (rawColour ((1535 + 1) % 1536) blank).2.1 ≤ (rawColour 1535 blank).2.1 + 1) ∧
    ((rawColour 1535 blank).2.2 ≤ (rawColour ((1535 + 1) % 1536) blank).2.2 + 1 ∧
      (rawColour ((1535 + 1) % 1536) blank).2.2 ≤ (rawColour 1535 blank).2.2 + 1)) :=
  ⟨le_rfl, hue_wheel_continuous 1535 blank le_rfl⟩

/-- C19: the hue base cycles with period exactly 1536 frames.  Starting
from the start-up value 0 and advancing once per frame, after `k` frames it
is `5 k mod 1536`; it is 0 again after 1536 frames and at no `k` strictly
between 0 and 1536; and every value in [0,1535] occurs at exactly one of the
frames 0, ..., 1535. -/
theorem hue_base_period (n : Nat) (now : Int) (s0 : State) :
    (∀ k : Nat, (advance^[k] (startup n now s0)).hue1 = 5 * k % 1536) ∧
    (advance^[1536] (startup n now s0)).hue1 = 0 ∧
    (∀ k : Nat, 0 < k → k < 1536 → (advance^[k] (startup n now s0)).hue1 ≠ 0) ∧
    (∀ v : Nat, v < 1536 →
      ∃ k : Nat, (k < 1536 ∧ (advance^[k] (startup n now s0)).hue1 = v) ∧
        ∀ j : Nat, j < 1536 ∧ (advance^[j] (startup n now s0)).hue1 = v → j = k) := by
  have hk : ∀ k : Nat, (advance^[k] (startup n now s0)).hue1 = 5 * k % 1536 := by
    intro k
    induction k with
    | zero => rfl
    | succ k ih =>
      rw [Function.iterate_succ_apply']
      show ((advance^[k] (startup n now s0)).hue1 + 5) % 1536 = 5 * (k + 1) % 1536
      rw [ih]; omega
  refine ⟨hk, ?_, ?_, ?_⟩
  · rw [hk]
  · intro k h0 h1
    rw [hk]; omega
  · intro v hv
    refine ⟨v * 1229 % 1536, ⟨Nat.mod_lt _ (by norm_num), ?_⟩, ?_⟩
    · rw [hk]; omega
    · rintro j ⟨hj, hjv⟩
      rw [hk] at hjv
      omega

/-- Witness of `hue_base_period`: after 307 frames the hue base is
`5 * 307 mod 1536 = 1535`, not 0, and 307 is the only frame among the first
1536 at which it is 1535. -/
theorem hue_base_period_witness :
    0 < 307 ∧ 307 < 1536 ∧
    (advance^[307] (startup 25 0 blank)).hue1 = 5 * 307 % 1536 ∧
    (advance^[307] (startup 25 0 blank)).hue1 ≠ 0 :=
  ⟨by decide, by decide, (hue_base_period 25 0 blank).1 307,
    (hue_base_period 25 0 blank).2.2.1 307 (by decide) (by decide)⟩

end Colorswirl
